import Mathlib

/-!
# Verification of the Echoman two-stage merge pipeline

Shallow embedding of the core services of the Echoman repository
(`src/backend/app/services/`): heat normalization, Stage 1 (period merge,
`halfday_merge.py`), Stage 2 (global merge, `global_merge.py`), the
classifier (`classification_service.py`) and the summarizer
(`summary_service.py`).

Modelling conventions:
* Python floats are modelled as exact rationals (`ℚ`); timestamps as `ℤ`
  (seconds); database tables as Lean lists; SQLAlchemy row mutation as a
  map over the list keyed by row id.
* External non-deterministic collaborators (the LLM chat endpoint, the
  embedding endpoint, the Chroma vector search) are oracle parameters:
  an `Option` result models the call either returning a parsed value or
  raising, exactly at the call sites where the Python code has
  `try/except`.
* Fields of the rows that no verified claim touches (urls, dedup keys,
  free-form interaction maps, audit blobs) are omitted from the row
  structures; every field that any claim reads or writes is present.
-/

/-- `SourceItem.merge_status` values: `pending_event_merge` (the spec's
`pendingPeriod`), `pending_global_merge` (`pendingGlobal`), `merged`,
`discarded`. -/
inductive MergeStatus where
  | pendingEventMerge
  | pendingGlobalMerge
  | merged
  | discarded
deriving DecidableEq, Repr

/-- One row of the `source_items` table (`app/models/source_item.py`),
restricted to the fields the merge pipeline reads or writes. -/
structure SourceItem where
  id : Nat
  platform : String
  title : String
  summary : Option String
  fetchedAt : Int
  heatValue : Option ℚ
  heatNormalized : Option ℚ
  period : String
  periodMergeGroupId : Option Nat
  occurrenceCount : Option Nat
  mergeStatus : MergeStatus
deriving DecidableEq, Repr

/-- The selection predicate shared by the heat normalizer, Stage 1 and the
stage-1 re-run check: `period == P AND merge_status == 'pending_event_merge'`
(`heat_normalization.py` lines 40-45, `halfday_merge.py` lines 193-202). -/
def isPendingEventOf (period : String) (it : SourceItem) : Bool :=
  it.period == period && it.mergeStatus == MergeStatus.pendingEventMerge

/-- `_get_pending_items` / the heat normalizer's initial query. -/
def getPendingItems (db : List SourceItem) (period : String) : List SourceItem :=
  db.filter (isPendingEventOf period)

/-! ## Heat normalization (`heat_normalization.py`, `normalize_period_heat`) -/

/-- `min(heat_values)` over a nonempty Python list. -/
def qmin : List ℚ → ℚ
  | [] => 0
  | [x] => x
  | x :: y :: xs => min x (qmin (y :: xs))

/-- `max(heat_values)` over a nonempty Python list. -/
def qmax : List ℚ → ℚ
  | [] => 0
  | [x] => x
  | x :: y :: xs => max x (qmax (y :: xs))

/-- The non-`None` `heat_value`s of the items of one platform group
(lines 57-71 group the window's items by platform and collect
`heat_values`). -/
def heatsOfPlatform (items : List SourceItem) (p : String) : List ℚ :=
  (items.filter (fun it => it.platform == p)).filterMap (·.heatValue)

/-- Step 3 of `normalize_period_heat` (lines 63-96): per-platform min-max
value of one item.  A platform group with no heat values assigns `0.5` to
every item; an item with `heat_value = None`, or a degenerate group with
`max == min`, gets `0.5`; otherwise `(value - min) / (max - min)`. -/
def minmaxVal (items : List SourceItem) (it : SourceItem) : ℚ :=
  let heats := heatsOfPlatform items it.platform
  if heats.isEmpty then 1/2
  else
    match it.heatValue with
    | none => 1/2
    | some h =>
      let mn := qmin heats
      let mx := qmax heats
      if mx = mn then 1/2 else (h - mn) / (mx - mn)

/-- `self.platform_weights.get(item.platform, 1.0)` (line 104). -/
def lookupWeight (weights : List (String × ℚ)) (p : String) : ℚ :=
  ((weights.find? (fun pr => pr.1 == p)).map (·.2)).getD 1

/-- `total_weight = sum(self.platform_weights.values())` (line 100). -/
def totalWeight (weights : List (String × ℚ)) : ℚ :=
  (weights.map (·.2)).sum

/-- Step 4 (lines 98-109): `normalized * platform_weight / total_weight`. -/
def weightedVal (weights : List (String × ℚ)) (items : List SourceItem)
    (it : SourceItem) : ℚ :=
  minmaxVal items it * lookupWeight weights it.platform / totalWeight weights

/-- Step 5 (line 112): `total_heat = sum(item.heat_normalized ...)` over the
window's weighted items. -/
def totalHeat (weights : List (String × ℚ)) (items : List SourceItem) : ℚ :=
  (items.map (weightedVal weights items)).sum

/-- Step 5 (lines 114-116): divide by the window total when it is positive;
the code's `if total_heat > 0` branch leaves the weighted values untouched
otherwise. -/
def finalHeatVal (weights : List (String × ℚ)) (items : List SourceItem)
    (it : SourceItem) : ℚ :=
  if 0 < totalHeat weights items then
    weightedVal weights items it / totalHeat weights items
  else weightedVal weights items it

/-- `HeatNormalizationService.normalize_period_heat`: recomputes
`heat_normalized` for every item of the window still in
`pending_event_merge`; all other rows (and every status) are untouched.
An empty selection returns `no_data` without touching the table. -/
def heatUpd (weights : List (String × ℚ)) (pend : List SourceItem)
    (it : SourceItem) : SourceItem :=
  { it with heatNormalized := some (finalHeatVal weights pend it) }

def normalizePeriodHeat (weights : List (String × ℚ)) (db : List SourceItem)
    (period : String) : List SourceItem :=
  let pend := getPendingItems db period
  if pend.isEmpty then db
  else
    db.map (fun it =>
      if isPendingEventOf period it then heatUpd weights pend it else it)

/-! ## Stage 1 — period merge (`halfday_merge.py`, `EventMergeService`)

The embedding endpoint and the sklearn cosine-similarity matrix are
external collaborators; they are modelled by a total similarity oracle
`simM : Nat → Nat → ℚ` over indices into the pending list (the code
guarantees every pending item has a vector: `_vectorize_items` stores a
real or mock vector for each item, lines 204-279, and those writes touch
no field any claim reads).  The LLM confirmation calls are modelled by a
verdict oracle indexed by call order: `none` models the call raising,
`some (isSame, confidence)` a parsed JSON reply. -/

/-- `_title_jaccard` (lines 347-363): bigram sets of the two titles,
`|∩| / |∪|`, and `0.0` when either set is empty. -/
def titleJaccard (title1 title2 : String) : ℚ :=
  let ngrams1 := (title1.toList.zip title1.toList.tail).dedup
  let ngrams2 := (title2.toList.zip title2.toList.tail).dedup
  if ngrams1.isEmpty || ngrams2.isEmpty then 0
  else
    let inter := (ngrams1.filter (fun g => ngrams2.contains g)).length
    let union := (ngrams1 ++ ngrams2).dedup.length
    if union = 0 then 0 else (inter : ℚ) / (union : ℚ)

/-- The attachment test of the greedy clustering loop (lines 326-337):
cosine similarity `≥ Tvec` and title bigram-Jaccard `≥ Tjac`. -/
def attachTest (pending : List SourceItem) (simM : Nat → Nat → ℚ)
    (tvec tjac : ℚ) (i j : Nat) : Bool :=
  tvec ≤ simM i j &&
    tjac ≤ titleJaccard (((pending.get? i).map (·.title)).getD "")
                        (((pending.get? j).map (·.title)).getD "")

/-- The greedy single-pass clustering loop of `_vector_clustering`
(lines 313-345): for each not-yet-used index `i`, seed a group and attach
every unused `j ≠ i` passing the attachment test. -/
def greedyGroups (attach : Nat → Nat → Bool) (all : List Nat) :
    List Nat → List Nat → List (List Nat)
  | [], _ => []
  | i :: rest, used =>
    if used.contains i then greedyGroups attach all rest used
    else
      let members := all.filter
        (fun j => !used.contains j && j != i && attach i j)
      (i :: members) :: greedyGroups attach all rest (i :: members ++ used)

/-- `_vector_clustering` (lines 281-345), returning the candidate groups
as lists of items.  Every pending item carries a vector (see the section
comment), so the `item_vectors` list coincides with the pending list. -/
def vectorClustering (pending : List SourceItem) (simM : Nat → Nat → ℚ)
    (tvec tjac : ℚ) : List (List SourceItem) :=
  let idxs := List.range pending.length
  (greedyGroups (attachTest pending simM tvec tjac) idxs idxs []).map
    (fun group => group.filterMap (fun i => pending.get? i))

/-- One final merge group of `_llm_judge_merge`: its fresh opaque group id,
its items, and whether the code wrote `item.period_merge_group_id` for its
items (the singleton-candidate branch, lines 381-390, builds the in-memory
group but never assigns the field on the row). -/
structure JGroup where
  gid : Nat
  items : List SourceItem
  gidWritten : Bool
deriving DecidableEq, Repr

/-- `_llm_judge_merge` (lines 365-519).  State threaded: the fresh-id
counter and the LLM-call counter.  Branches:
* singleton candidate group: kept as is, **no** `period_merge_group_id`
  written (lines 381-390);
* multi-item group, verdict `is_same_event ∧ confidence ≥ 0.8`: one group,
  ids written (lines 478-491);
* multi-item group, any other verdict: split into singletons, ids written
  (lines 493-502);
* multi-item group, call raises: split into singletons, ids written
  (lines 504-515).
Each multi-item group costs exactly one LLM call. -/
def llmJudgeMerge (verdict : Nat → Option (Bool × ℚ)) :
    List (List SourceItem) → Nat → Nat → List JGroup × Nat × Nat
  | [], nextGid, calls => ([], nextGid, calls)
  | items :: rest, nextGid, calls =>
    match items with
    | [it] =>
      let (gs, g', c') := llmJudgeMerge verdict rest (nextGid + 1) calls
      (⟨nextGid, [it], false⟩ :: gs, g', c')
    | _ =>
      match verdict calls with
      | some (isSame, conf) =>
        if isSame && (4/5 : ℚ) ≤ conf then
          let (gs, g', c') := llmJudgeMerge verdict rest (nextGid + 1) (calls + 1)
          (⟨nextGid, items, true⟩ :: gs, g', c')
        else
          let (gs, g', c') :=
            llmJudgeMerge verdict rest (nextGid + items.length) (calls + 1)
          ((items.enum.map (fun p => ⟨nextGid + p.1, [p.2], true⟩)) ++ gs, g', c')
      | none =>
        let (gs, g', c') :=
          llmJudgeMerge verdict rest (nextGid + items.length) (calls + 1)
        ((items.enum.map (fun p => ⟨nextGid + p.1, [p.2], true⟩)) ++ gs, g', c')

/-- The per-row effect of the `item.period_merge_group_id = group_id`
writes inside `_llm_judge_merge`. -/
def judgeStep (g : JGroup) (it : SourceItem) : SourceItem :=
  if g.gidWritten && (g.items.map (·.id)).contains it.id then
    { it with periodMergeGroupId := some g.gid }
  else it

/-- The per-row effect of `_filter_by_occurrence` (lines 521-560): set
`occurrence_count` to the group size, and the status to
`pending_global_merge` when the size reaches `min_occurrence`, else
`discarded`. -/
def filterStep (minOcc : Nat) (g : JGroup) (it : SourceItem) : SourceItem :=
  if (g.items.map (·.id)).contains it.id then
    { it with
      occurrenceCount := some g.items.length,
      mergeStatus :=
        if minOcc ≤ g.items.length then MergeStatus.pendingGlobalMerge
        else MergeStatus.discarded }
  else it

/-- All `period_merge_group_id` writes of `_llm_judge_merge`, applied to
the table in group order. -/
def applyJudgeWrites (db : List SourceItem) (gs : List JGroup) :
    List SourceItem :=
  gs.foldl (fun d g => d.map (judgeStep g)) db

/-- All writes of `_filter_by_occurrence`, applied in group order. -/
def applyFilterWrites (minOcc : Nat) (db : List SourceItem)
    (gs : List JGroup) : List SourceItem :=
  gs.foldl (fun d g => d.map (filterStep minOcc g)) db

/-- The outcome of one `run_event_merge` invocation: the table after the
run, the `RunPipeline` audit fields the claims read (`status`,
`input_count`), the number of LLM calls made, and the `status` field of
the returned result dict. -/
structure Stage1Result where
  db : List SourceItem
  runStatus : String
  inputCount : Nat
  outputCount : Nat
  llmCalls : Nat
  resultStatus : String
deriving Repr

/-- `run_event_merge` (lines 84-191): select the window's pending items;
with none, finalize the run as `success` with zero counts and result
`no_data` without touching any row or the LLM (lines 110-128); otherwise
cluster, judge, and filter.  (`_aggregate_heat`, lines 562-581, mutates
only the in-memory group dicts and is therefore invisible to the table.) -/
def runEventMerge (simM : Nat → Nat → ℚ) (verdict : Nat → Option (Bool × ℚ))
    (tvec tjac : ℚ) (minOcc : Nat) (db : List SourceItem) (period : String) :
    Stage1Result :=
  let pending := getPendingItems db period
  if pending.isEmpty then
    ⟨db, "success", 0, 0, 0, "no_data"⟩
  else
    let cand := vectorClustering pending simM tvec tjac
    let (jgs, _, calls) := llmJudgeMerge verdict cand 0 0
    let db1 := applyJudgeWrites db jgs
    let db2 := applyFilterWrites minOcc db1 jgs
    let kept := jgs.foldl
      (fun n g => if minOcc ≤ g.items.length then n + g.items.length else n) 0
    ⟨db2, "success", pending.length, kept, calls, "success"⟩

/-! ## Topic store (`app/models/topic.py`, `summary.py`, `embedding.py`) -/

/-- One row of `topics`, restricted to the fields Stage 2, the classifier
and the summarizer read or write. -/
structure Topic where
  id : Nat
  titleKey : String
  firstSeen : Int
  lastActive : Int
  status : String
  intensityTotal : Nat
  currentHeatNormalized : ℚ
  heatPercentage : ℚ
  category : Option String
  categoryConfidence : Option ℚ
  categoryMethod : Option String
  summaryId : Option Nat
deriving DecidableEq, Repr

/-- One row of `topic_nodes`. -/
structure TopicNode where
  topicId : Nat
  sourceItemId : Nat
  appendedAt : Int
deriving DecidableEq, Repr

/-- One row of `topic_period_heat`. -/
structure PeriodHeatRow where
  topicId : Nat
  date : String
  period : String
  heatNormalized : ℚ
  heatPercentage : ℚ
  sourceCount : Nat
deriving DecidableEq, Repr

/-- One row of `summaries`. -/
structure SummaryRow where
  id : Nat
  topicId : Nat
  content : String
  method : String
  generatedAt : Int
deriving DecidableEq, Repr

/-- One row of the relational `embeddings` table, keyed by
`(object_type, object_id)`. -/
structure EmbedRow where
  objectType : String
  objectId : Nat
deriving DecidableEq, Repr

/-- One entry of the Chroma vector store, keyed the same way. -/
structure VSEntry where
  objectType : String
  objectId : Nat
deriving DecidableEq, Repr

/-- The persistent state Stage 2 operates on.  `nextTopicId` and
`nextSummaryId` model the autoincrement id sequences (database ids are
positive, so an assigned `summaryId` is never the Python-falsy `0`). -/
structure Store where
  items : List SourceItem
  topics : List Topic
  nodes : List TopicNode
  periodHeats : List PeriodHeatRow
  summaries : List SummaryRow
  embedTable : List EmbedRow
  vectorStore : List VSEntry
  nextTopicId : Nat
  nextSummaryId : Nat
deriving DecidableEq, Repr

/-- SQLAlchemy mutation of a fetched `Topic` row: the row with that id is
replaced by the mutated object. -/
def updateTopicRow (topics : List Topic) (t : Topic) : List Topic :=
  topics.map (fun x => if x.id == t.id then t else x)

/-- The `item.merge_status = "merged"` writes of `_merge_to_topic` /
`_create_new_topic`. -/
def setMergedByIds (items : List SourceItem) (ids : List Nat) :
    List SourceItem :=
  items.map (fun it =>
    if ids.contains it.id then { it with mergeStatus := MergeStatus.merged }
    else it)

/-- `max(item.fetched_at for item in items)` (nonempty in every call). -/
def imax : List Int → Int
  | [] => 0
  | [x] => x
  | x :: y :: xs => max x (imax (y :: xs))

/-- `min(item.fetched_at for item in items)`. -/
def imin : List Int → Int
  | [] => 0
  | [x] => x
  | x :: y :: xs => min x (imin (y :: xs))

def maxFetchedAt (items : List SourceItem) : Int := imax (items.map (·.fetchedAt))

def minFetchedAt (items : List SourceItem) : Int := imin (items.map (·.fetchedAt))

/-- A throwaway default for `items_list[0]`-style accesses; every call
site guarantees a nonempty list. -/
def defaultSourceItem : SourceItem :=
  ⟨0, "", "", none, 0, none, none, "", none, none, MergeStatus.pendingEventMerge⟩

/-- Stable insertion into a descending-by-key list (used to model SQL
`ORDER BY key DESC`; the order among equal keys is unspecified in the
database, the model keeps the stored order). -/
def insertDescBy {α : Type} (key : α → Int) (x : α) : List α → List α
  | [] => [x]
  | y :: ys => if key y < key x then x :: y :: ys else y :: insertDescBy key x ys

def sortDescBy {α : Type} (key : α → Int) (l : List α) : List α :=
  l.foldr (insertDescBy key) []

/-! ## Classifier (`classification_service.py`) -/

/-- Character-list prefix test (helper for `containsSub`). -/
def seqPrefix : List Char → List Char → Bool
  | [], _ => true
  | _ :: _, [] => false
  | a :: as, b :: bs => a == b && seqPrefix as bs

/-- Contiguous-subsequence test (helper for `containsSub`). -/
def seqInfix (needle : List Char) : List Char → Bool
  | [] => needle.isEmpty
  | b :: t => seqPrefix needle (b :: t) || seqInfix needle t

/-- `keyword in text`: Python substring containment. -/
def containsSub (text kw : String) : Bool :=
  seqInfix kw.toList text.toList

/-- The keyword score loop (lines 148-155): one increment per matching
keyword. -/
def keywordScore (kws : List String) (inc : ℚ) (text : String) : ℚ :=
  kws.foldl (fun acc kw => if containsSub text kw then acc + inc else acc) 0

def entertainmentStrong : List String :=
  ["明星", "娱乐", "八卦", "绯闻", "爆料", "综艺", "电影", "电视剧",
   "演员", "歌手", "偶像", "爱豆", "粉丝", "娱乐圈", "影视", "节目",
   "出轨", "离婚", "恋情", "结婚", "生子", "颁奖", "首映", "热播"]

def entertainmentMedium : List String :=
  ["导演", "编剧", "制作人", "经纪人", "造型师", "剧组", "片场",
   "首播", "上映", "票房", "收视率", "口碑", "评分", "豆瓣"]

def currentAffairsStrong : List String :=
  ["政策", "法规", "政府", "国务院", "发改委", "司法", "法院", "检察",
   "公安", "警方", "事故", "案件", "民生", "舆情", "公共", "社会",
   "财经", "经济", "股市", "央行", "监管", "治理", "改革", "疫情"]

def currentAffairsMedium : List String :=
  ["会议", "通知", "公告", "声明", "调查", "处理", "整治", "专项",
   "民众", "市民", "居民", "群众", "网友", "热议", "关注", "讨论"]

def sportsEsportsStrong : List String :=
  ["比赛", "联赛", "世界杯", "总决赛", "季后赛", "决赛", "半决赛",
   "球队", "球员", "教练", "俱乐部", "战队", "电竞", "赛事", "夺冠",
   "冠军", "亚军", "金牌", "银牌", "铜牌", "破纪录", "MVP"]

def sportsEsportsMedium : List String :=
  ["足球", "篮球", "网球", "羽毛球", "乒乓球", "游泳", "田径", "体操",
   "LOL", "DOTA", "王者荣耀", "吃鸡", "CS", "转会", "签约", "续约"]

/-- Raw (pre-normalization) entertainment score: strong keywords 0.15
each, medium 0.05 each. -/
def entScoreRaw (text : String) : ℚ :=
  keywordScore entertainmentStrong (3/20) text +
    keywordScore entertainmentMedium (1/20) text

/-- Raw current-affairs score. -/
def caScoreRaw (text : String) : ℚ :=
  keywordScore currentAffairsStrong (3/20) text +
    keywordScore currentAffairsMedium (1/20) text

/-- Raw sports/esports score, including the `PLATFORM_BIAS` pass
(lines 57-61, 157-161): `+0.3` per `"hupu"` entry of the platform list. -/
def spScoreRaw (text : String) (platforms : List String) : ℚ :=
  platforms.foldl (fun acc p => if p == "hupu" then acc + 3/10 else acc)
    (keywordScore sportsEsportsStrong (3/20) text +
      keywordScore sportsEsportsMedium (1/20) text)

/-- `_rule_based_classification` (lines 127-177): score each label, add
platform bias, normalize by the maximum (`min(score/max, 1.0)` when the
maximum is positive), take the best label in Python `max` order
(`entertainment`, `current_affairs`, `sports_esports`), and fall back to
`current_affairs` when the best normalized score is below `0.2`. -/
def ruleBasedClassification (text : String) (platforms : List String) :
    String × ℚ :=
  let e := entScoreRaw text
  let c := caScoreRaw text
  let s := spScoreRaw text platforms
  let m := max e (max c s)
  let en := if 0 < m then min (e / m) 1 else e
  let cn := if 0 < m then min (c / m) 1 else c
  let sn := if 0 < m then min (s / m) 1 else s
  let best :=
    if cn ≤ en ∧ sn ≤ en then ("entertainment", en)
    else if sn ≤ cn then ("current_affairs", cn)
    else ("sports_esports", sn)
  if best.2 < 1/5 then ("current_affairs", best.2) else best

/-- `_get_topic_key_nodes` (lines 336-353): the topic's nodes ordered by
`appended_at DESC`, limited to 20. -/
def topicKeyNodes (s : Store) (topicId : Nat) : List TopicNode :=
  (sortDescBy (·.appendedAt) (s.nodes.filter (fun n => n.topicId == topicId))).take 20

/-- The `node.source_item` resolution used when building the classifier's
text (lines 96-106): nodes whose source item is missing contribute
nothing. -/
def classifierItems (s : Store) (topicId : Nat) : List SourceItem :=
  (topicKeyNodes s topicId).filterMap
    (fun n => s.items.find? (fun it => it.id == n.sourceItemId))

/-- `" ".join(texts)`. -/
def joinWithSpace : List String → String
  | [] => ""
  | [s] => s
  | s :: rest => s ++ " " ++ joinWithSpace rest

/-- The concatenated title/summary text fed to the rule pass. -/
def classifierText (s : Store) (topicId : Nat) : String :=
  joinWithSpace
    ((classifierItems s topicId).flatMap (fun it =>
      match it.summary with
      | some sm => [it.title, sm]
      | none => [it.title]))

/-- `platforms = set(...)` (line 104): deduplicated platform list; the
set's iteration order never affects the (commutative) bias sum. -/
def classifierPlatforms (s : Store) (topicId : Nat) : List String :=
  ((classifierItems s topicId).map (·.platform)).dedup

/-- `classify_topic` (lines 72-125).  The LLM fallback is the oracle
`llm`: `some (category, confidence)` models a reply that survived
`_parse_llm_response` (which clamps confidence and validates the label and
never raises), `none` models the `chat_completion` call raising, in which
case `_llm_classification` returns `(current_affairs, 0.3)` (lines
283-286) and `classify_topic` labels the outcome `"llm"` (line 125). -/
def classifyTopic (s : Store) (topic : Topic) (llm : Option (String × ℚ))
    (forceLlm : Bool) : String × ℚ × String :=
  let nodes := topicKeyNodes s topic.id
  if nodes.isEmpty then ("current_affairs", 3/10, "default")
  else
    let llmResult : String × ℚ × String :=
      match llm with
      | some (cat, conf) => (cat, conf, "llm")
      | none => ("current_affairs", 3/10, "llm")
    if forceLlm then llmResult
    else
      let rule := ruleBasedClassification (classifierText s topic.id)
        (classifierPlatforms s topic.id)
      if (3/5 : ℚ) ≤ rule.2 then (rule.1, rule.2, "rule")
      else llmResult

/-! ## Summarizer (`summary_service.py`)

The LLM calls are oracles.  For the full summary, `some text` models a
successful `chat_completion` whose reply went through the robust parse
chain (`_parse_summary_response`, lines 447-550, which catches its own
errors and always yields a summary string), delivering `text` as the final
`summary_data["summary"]`; `none` models the call raising.  Prompt
construction and token truncation (pure string work) write nothing to the
store and are not modelled. -/

/-- One parsed reply of the incremental-summary LLM call. -/
structure IncResult where
  needsUpdate : Bool
  text : String
deriving DecidableEq, Repr

/-- `_get_current_summary` (lines 630-643): `ORDER BY generated_at DESC
LIMIT 1`; among equal timestamps the model picks the last-inserted row. -/
def latestSummary (rows : List SummaryRow) : Option SummaryRow :=
  rows.foldl
    (fun acc r =>
      match acc with
      | none => some r
      | some a => if a.generatedAt ≤ r.generatedAt then some r else some a)
    none

/-- `_create_placeholder_summary` (lines 686-707): insert a `placeholder`
row and point the topic's `summary_id` at it.  No embedding and no vector
store entry are written. -/
def createPlaceholderSummary (s : Store) (t : Topic) (nowT : Int) :
    Store × SummaryRow :=
  let row : SummaryRow :=
    ⟨s.nextSummaryId, t.id, "事件「" ++ t.titleKey ++ "」的摘要正在生成中...",
      "placeholder", nowT⟩
  ({ s with
      summaries := s.summaries ++ [row],
      nextSummaryId := s.nextSummaryId + 1,
      topics := updateTopicRow s.topics { t with summaryId := some row.id } },
    row)

/-- `generate_full_summary` (lines 72-182): with no nodes, or with the LLM
call raising, fall back to a placeholder; on success insert a `full`
Summary row and set the topic's `summary_id`.  Note that no path computes
an embedding or writes the `embeddings` table or the vector store (the
`_generate_summary_embedding` method the spec describes does not exist in
`SummaryService`). -/
def generateFullSummary (s : Store) (t : Topic) (llm : Option String)
    (nowT : Int) : Store × SummaryRow :=
  let nodes := s.nodes.filter (fun n => n.topicId == t.id)
  if nodes.isEmpty then createPlaceholderSummary s t nowT
  else
    match llm with
    | some text =>
      let row : SummaryRow := ⟨s.nextSummaryId, t.id, text, "full", nowT⟩
      ({ s with
          summaries := s.summaries ++ [row],
          nextSummaryId := s.nextSummaryId + 1,
          topics := updateTopicRow s.topics { t with summaryId := some row.id } },
        row)
    | none => createPlaceholderSummary s t nowT

/-- `_should_update` (lines 613-628): at least 3 new nodes and at least
6 hours since the current summary. -/
def shouldUpdate (cur : SummaryRow) (newNodes : List TopicNode) (nowT : Int) :
    Bool :=
  if newNodes.length < 3 then false
  else if nowT - cur.generatedAt < 6 * 3600 then false
  else true

/-- `generate_incremental_summary` (lines 184-286): gated by
`_should_update`; a raising LLM call or a `needs_update = false` reply
writes nothing; otherwise insert an `incremental` row and repoint
`summary_id`.  (Again, no embedding is written anywhere.) -/
def generateIncrementalSummary (s : Store) (t : Topic) (cur : SummaryRow)
    (newNodes : List TopicNode) (llm : Option IncResult) (nowT : Int) :
    Store × Option SummaryRow :=
  if !shouldUpdate cur newNodes nowT then (s, none)
  else
    match llm with
    | some r =>
      if !r.needsUpdate then (s, none)
      else
        let row : SummaryRow := ⟨s.nextSummaryId, t.id, r.text, "incremental", nowT⟩
        ({ s with
            summaries := s.summaries ++ [row],
            nextSummaryId := s.nextSummaryId + 1,
            topics := updateTopicRow s.topics { t with summaryId := some row.id } },
          some row)
    | none => (s, none)

/-- `generate_or_update_summary` (lines 40-70). -/
def generateOrUpdateSummary (s : Store) (t : Topic) (newNodes : List TopicNode)
    (llmFull : Option String) (llmInc : Option IncResult) (nowT : Int) :
    Store × Option SummaryRow :=
  match latestSummary (s.summaries.filter (fun r => r.topicId == t.id)) with
  | none =>
    let (s', row) := generateFullSummary s t llmFull nowT
    (s', some row)
  | some cur => generateIncrementalSummary s t cur newNodes llmInc nowT

/-! ## Stage 2 — global merge (`global_merge.py`, `GlobalMergeService`) -/

/-- `_ensure_summary_vector` (lines 116-141).  With a `summary_id` whose
vector already exists: nothing.  With a `summary_id` but no vector: the
code calls `SummaryService._generate_summary_embedding`, a method that
does not exist, so an `AttributeError` is raised and swallowed by the
surrounding `except` — nothing is written.  With no summary (or a dangling
`summary_id`): a placeholder summary is created — which also writes no
vector. -/
def ensureSummaryVector (s : Store) (t : Topic) (nowT : Int) : Store :=
  match t.summaryId with
  | some sid =>
    if s.vectorStore.any
        (fun e => e.objectType == "topic_summary" && e.objectId == sid) then s
    else if (s.summaries.find? (fun r => r.id == sid)).isSome then s
    else (createPlaceholderSummary s t nowT).1
  | none => (createPlaceholderSummary s t nowT).1

/-- One raw hit of the Chroma `search_similar` call: the `topic_id`
metadata field (absent metadata modelled as `none`) and the cosine
distance. -/
structure SearchHit where
  topicId : Option Nat
  distance : ℚ
deriving DecidableEq, Repr

/-- The retrieval-time external state for one event group: whether the
representative's vector exists in the store (`get_embedding`), whether the
Chroma search succeeded (its `except` branch), and the returned hits. -/
structure RetrievalInput where
  hasVec : Bool
  searchOk : Bool
  hits : List SearchHit
deriving DecidableEq, Repr

/-- One candidate topic as assembled by `_retrieve_candidate_topics`
(similarity present only on the Chroma path). -/
structure Candidate where
  topicId : Nat
  title : String
  lastActive : Int
  lengthHours : ℚ
  similarity : Option ℚ
deriving DecidableEq, Repr

def mkCandidate (t : Topic) (sim : Option ℚ) : Candidate :=
  ⟨t.id, t.titleKey, t.lastActive,
    ((t.lastActive - t.firstSeen : Int) : ℚ) / 3600, sim⟩

/-- The Chroma filtering loop of `_retrieve_candidate_topics`
(lines 399-435): convert distance to similarity, drop hits below the
similarity threshold, drop missing/falsy/duplicate topic ids, keep only
topics that are `active` and recent, and stop once `top_k` candidates are
collected. -/
def chromaLoop (topics : List Topic) (activeSince : Int) (ssim : ℚ)
    (topK : Nat) : List SearchHit → List Nat → List Candidate → List Candidate
  | [], _, acc => acc
  | h :: rest, seen, acc =>
    if topK ≤ acc.length then acc
    else
      let sim := 1 - h.distance
      if sim < ssim then chromaLoop topics activeSince ssim topK rest seen acc
      else
        match h.topicId with
        | none => chromaLoop topics activeSince ssim topK rest seen acc
        | some tid =>
          if tid == 0 || seen.contains tid then
            chromaLoop topics activeSince ssim topK rest seen acc
          else
            match topics.find? (fun t =>
                t.id == tid && t.status == "active" && activeSince ≤ t.lastActive) with
            | some t =>
              chromaLoop topics activeSince ssim topK rest (tid :: seen)
                (acc ++ [mkCandidate t (some sim)])
            | none => chromaLoop topics activeSince ssim topK rest seen acc

/-- The fallback query of `_retrieve_candidate_topics` (lines 444-464):
the `top_k` most recently active of the `active`, recent topics. -/
def recentActiveFallback (topics : List Topic) (activeSince : Int)
    (topK : Nat) : List Candidate :=
  ((sortDescBy (·.lastActive)
      (topics.filter (fun t => t.status == "active" && activeSince ≤ t.lastActive))).take
    topK).map (fun t => mkCandidate t none)

/-- `_retrieve_candidate_topics` (lines 348-464): no vector ⇒ no
candidates at all (early `return []`, line 382); otherwise the Chroma
loop, and — when it yields nothing or the search raised — the
recently-active fallback. -/
def retrieveCandidateTopics (topics : List Topic) (nowT : Int)
    (inp : RetrievalInput) (topKcfg : Nat) (ssim : ℚ) : List Candidate :=
  let topK := min topKcfg 3
  let activeSince := nowT - 180 * 86400
  if !inp.hasVec then []
  else
    let chromaCands :=
      if inp.searchOk then chromaLoop topics activeSince ssim topK inp.hits [] []
      else []
    if !chromaCands.isEmpty then chromaCands
    else recentActiveFallback topics activeSince topK

/-- The raw `target_topic_id` an LLM reply may carry: an int, a float, a
string, or `null`/absent. -/
inductive RawTarget where
  | rint (n : Int)
  | rfloat (q : ℚ)
  | rstr (s : String)
  | rnone
deriving DecidableEq, Repr

/-- `int()` truncation toward zero. -/
def truncInt (q : ℚ) : Int :=
  if 0 ≤ q then q.floor else q.ceil

/-- `re.search(r'\d+', s)`: the first maximal digit run, parsed. -/
def firstDigitRun (cs : List Char) : Option Nat :=
  match cs with
  | [] => none
  | c :: rest =>
    if c.isDigit then
      some ((c :: rest.takeWhile Char.isDigit).foldl
        (fun n d => n * 10 + (d.toNat - 48)) 0)
    else firstDigitRun rest

/-- The common int branch of `_resolve_llm_target_topic_id`: a candidate
id verbatim, or a 1-based index into the candidate list. -/
def resolveIntTarget (n : Int) (ids : List Nat) : Option Nat :=
  if 0 ≤ n && ids.contains n.toNat then some n.toNat
  else if 1 ≤ n && n ≤ (ids.length : Int) then ids.get? (n.toNat - 1)
  else none

/-- `_resolve_llm_target_topic_id` (lines 615-658).  The string branch
extracts the first digit run (leading whitespace stripping cannot change
it). -/
def resolveLlmTargetTopicId (raw : RawTarget) (candidates : List Candidate) :
    Option Nat :=
  let ids := candidates.map (·.topicId)
  match raw with
  | .rnone => none
  | .rint n => resolveIntTarget n ids
  | .rfloat q => resolveIntTarget (truncInt q) ids
  | .rstr s =>
    match firstDigitRun s.toList with
    | none => none
    | some v => resolveIntTarget (v : Int) ids

/-- One parsed reply of the Stage-2 relation-judgement LLM call. -/
structure LLMRel where
  decision : String
  rawTarget : RawTarget
  confidence : ℚ
deriving DecidableEq, Repr

/-- The decision `_llm_judge_relation` hands back to
`_process_event_group`. -/
structure RelDecision where
  action : String
  targetTopicId : Option Nat
deriving DecidableEq, Repr

/-- `_llm_judge_relation` (lines 466-613): accept a merge only when the
reply says `merge`, its confidence reaches the threshold, and the raw
target resolves to a candidate; a raising call (oracle `none`) yields
`new`. -/
def llmJudgeRelation (candidates : List Candidate) (rel : Option LLMRel)
    (cmerge : ℚ) : RelDecision :=
  if candidates.isEmpty then ⟨"new", none⟩
  else
    match rel with
    | some r =>
      let resolved := resolveLlmTargetTopicId r.rawTarget candidates
      if r.decision == "merge" && cmerge ≤ r.confidence && resolved.isSome then
        ⟨"merge", resolved⟩
      else ⟨"new", none⟩
    | none => ⟨"new", none⟩

/-- `period.split("_")` on the character list (the separator is the
single character `_`). -/
def splitUnderscore : List Char → List (List Char)
  | [] => [[]]
  | x :: xs =>
    let r := splitUnderscore xs
    if x == '_' then [] :: r
    else
      match r with
      | [] => [[x]]
      | g :: gs => (x :: g) :: gs

/-- `date_str, period = period.split("_")` — the date part. -/
def periodDate (period : String) : String :=
  String.mk ((splitUnderscore period.toList).headD [])

/-- `date_str, period = period.split("_")` — the window-tag part. -/
def periodTag (period : String) : String :=
  String.mk (((splitUnderscore period.toList).get? 1).getD [])

/-- `sum(item.heat_normalized or 0 ...) / len(items) if items else 0`. -/
def clusterMeanHeat (items : List SourceItem) : ℚ :=
  if items.isEmpty then 0
  else ((items.map (fun it => it.heatNormalized.getD 0)).sum) / (items.length : ℚ)

/-- `_update_topic_heat` (lines 817-865): upsert the `(topic, date,
period)` heat row — **overwriting** the stored heat but **adding** the
cluster size to the stored `source_count` on the update path — and set the
topic's current-heat fields. -/
def isHeatRowFor (tid : Nat) (d p : String) (r : PeriodHeatRow) : Bool :=
  r.topicId == tid && r.date == d && r.period == p

def updateTopicHeat (s : Store) (t : Topic) (items : List SourceItem)
    (period : String) : Store × Topic :=
  let d := periodDate period
  let p := periodTag period
  let heat := clusterMeanHeat items
  let s' :=
    if (s.periodHeats.find? (isHeatRowFor t.id d p)).isSome then
      { s with
        periodHeats := s.periodHeats.map (fun r =>
          if isHeatRowFor t.id d p r then
            { r with
              heatNormalized := heat,
              heatPercentage := heat * 100,
              sourceCount := r.sourceCount + items.length }
          else r) }
    else
      { s with
        periodHeats := s.periodHeats ++
          [⟨t.id, d, p, heat, heat * 100, items.length⟩] }
  (s', { t with currentHeatNormalized := heat, heatPercentage := heat * 100 })

/-- `_merge_to_topic` (lines 743-815): a missing topic is a no-op;
otherwise set `last_active` to the **cluster's** max `fetched_at` (the
previous value is not consulted), bump `intensity_total`, append the
nodes, flip the items to `merged`, upsert the heat row, ensure a summary
vector, and run the incremental-summary update. -/
def mergeToTopic (s : Store) (topicId : Nat) (items : List SourceItem)
    (period : String) (llmFull : Option String) (llmInc : Option IncResult)
    (nowT : Int) : Store :=
  match s.topics.find? (fun t => t.id == topicId) with
  | none => s
  | some t =>
    let t1 := { t with
      lastActive := maxFetchedAt items,
      intensityTotal := t.intensityTotal + items.length }
    let s1 := { s with
      nodes := s.nodes ++ items.map (fun it => ⟨topicId, it.id, nowT⟩),
      items := setMergedByIds s.items (items.map (·.id)) }
    let (s2, t2) := updateTopicHeat s1 t1 items period
    let s3 := { s2 with topics := updateTopicRow s2.topics t2 }
    let s4 := ensureSummaryVector s3 t2 nowT
    let newNodes := s4.nodes.filter (fun n =>
      n.topicId == topicId && (items.map (·.id)).contains n.sourceItemId)
    let tcur := (s4.topics.find? (fun x => x.id == topicId)).getD t2
    (generateOrUpdateSummary s4 tcur newNodes llmFull llmInc nowT).1

/-- `_create_new_topic` (lines 660-741): build the topic from the cluster,
append nodes, flip the items to `merged`, upsert the heat row, write the
placeholder summary vector, and classify (a classification failure cannot
roll back the creation). -/
def createNewTopic (s : Store) (items : List SourceItem) (period : String)
    (clf : Option (String × ℚ)) (nowT : Int) : Store × Nat :=
  let rep := items.headD defaultSourceItem
  let t : Topic :=
    { id := s.nextTopicId,
      titleKey := rep.title,
      firstSeen := minFetchedAt items,
      lastActive := maxFetchedAt items,
      status := "active",
      intensityTotal := items.length,
      currentHeatNormalized := clusterMeanHeat items,
      heatPercentage := 0,
      category := none, categoryConfidence := none, categoryMethod := none,
      summaryId := none }
  let s1 := { s with
    topics := s.topics ++ [t],
    nextTopicId := s.nextTopicId + 1,
    nodes := s.nodes ++ items.map (fun it => ⟨t.id, it.id, nowT⟩),
    items := setMergedByIds s.items (items.map (·.id)) }
  let (s2, t2) := updateTopicHeat s1 t items period
  let s3 := { s2 with topics := updateTopicRow s2.topics t2 }
  let s4 := ensureSummaryVector s3 t2 nowT
  let tcur := (s4.topics.find? (fun x => x.id == t.id)).getD t2
  let c := classifyTopic s4 tcur clf false
  let tclf : Topic :=
    { tcur with
      category := some c.1,
      categoryConfidence := some c.2.1,
      categoryMethod := some c.2.2 }
  ({ s4 with topics := updateTopicRow s4.topics tclf }, t.id)

/-- One event group of `_get_pending_merge_groups`: the shared
`period_merge_group_id` and the group's items (the first is the
representative). -/
structure EventGroup where
  gid : Option Nat
  items : List SourceItem
deriving DecidableEq, Repr

/-- `_get_pending_merge_groups` (lines 257-289): the window's
`pending_global_merge` items, grouped by `period_merge_group_id` in
first-occurrence order. -/
def getPendingMergeGroups (items : List SourceItem) (period : String) :
    List EventGroup :=
  let sel := items.filter (fun it =>
    it.period == period && it.mergeStatus == MergeStatus.pendingGlobalMerge)
  let gids := sel.foldl
    (fun acc it =>
      if acc.contains it.periodMergeGroupId then acc
      else acc ++ [it.periodMergeGroupId]) ([] : List (Option Nat))
  gids.map (fun gid =>
    ⟨gid, sel.filter (fun it => it.periodMergeGroupId == gid)⟩)

/-- The external inputs of one `_process_event_group` call: the retrieval
state for the representative, the relation-judgement reply, the
classifier-fallback reply, and the summary replies. -/
structure GroupOracle where
  retr : RetrievalInput
  rel : Option LLMRel
  clf : Option (String × ℚ)
  full : Option String
  inc : Option IncResult

/-- What one `_process_event_group` call reported. -/
structure GroupOutcome where
  action : String
  llmCalled : Bool
  topicId : Option Nat
deriving DecidableEq, Repr

/-- `_process_event_group` (lines 291-346): no candidate ⇒ create a new
topic **without any relation-judgement LLM call**; otherwise judge (one
LLM call) and either merge into the resolved topic or create a new one. -/
def processEventGroup (s : Store) (g : EventGroup) (period : String)
    (o : GroupOracle) (topKcfg : Nat) (ssim cmerge : ℚ) (nowT : Int) :
    Store × GroupOutcome :=
  let candidates := retrieveCandidateTopics s.topics nowT o.retr topKcfg ssim
  if candidates.isEmpty then
    let (s', tid) := createNewTopic s g.items period o.clf nowT
    (s', ⟨"new", false, some tid⟩)
  else
    let d := llmJudgeRelation candidates o.rel cmerge
    if d.action == "merge" then
      match d.targetTopicId with
      | some tid =>
        (mergeToTopic s tid g.items period o.full o.inc nowT,
          ⟨"merge", true, some tid⟩)
      | none =>
        let (s', tid) := createNewTopic s g.items period o.clf nowT
        (s', ⟨"new", true, some tid⟩)
    else
      let (s', tid) := createNewTopic s g.items period o.clf nowT
      (s', ⟨"new", true, some tid⟩)

/-- The outcome of one `run_global_merge` invocation: the store, the
`RunPipeline` audit fields, and the result status. -/
structure Stage2Result where
  store : Store
  runStatus : String
  inputCount : Nat
  mergeCount : Nat
  newCount : Nat
  resultStatus : String

/-- One iteration of the main loop of `run_global_merge`: process one event
group and update the (merge count, new count, new-topic ids) accumulators. -/
def globalStep (oracles : Nat → GroupOracle) (topKcfg : Nat) (ssim cmerge : ℚ)
    (period : String) (nowT : Int) (acc : Store × Nat × Nat × List Nat)
    (p : Nat × EventGroup) : Store × Nat × Nat × List Nat :=
  match acc with
  | (st, mc, nc, nts) =>
    let r := processEventGroup st p.2 period (oracles p.1) topKcfg ssim cmerge nowT
    if r.2.action == "merge" then (r.1, mc + 1, nc, nts)
    else (r.1, mc, nc + 1, nts ++ r.2.topicId.toList)

/-- One iteration of `_batch_generate_summaries`: generate the full summary
of one newly created topic (a vanished topic is skipped). -/
def batchStep (batchFull : Nat → Option String) (nowT : Int) (st : Store)
    (p : Nat × Nat) : Store :=
  match st.topics.find? (fun t => t.id == p.2) with
  | some t => (generateFullSummary st t (batchFull p.1) nowT).1
  | none => st

/-- `run_global_merge` (lines 143-256): group the window's pending items;
with none, finalize as `success` with zero counts and result `no_data`;
otherwise process at most `MAX_BATCH_SIZE = 200` groups sequentially
(`CONCURRENT_BATCH_SIZE = 1`), then batch-generate the full summaries of
the newly created topics (`_batch_generate_summaries` /
`_generate_single_summary`, concurrency modelled as the sequential order
of a single worker). -/
def runGlobalMerge (oracles : Nat → GroupOracle) (batchFull : Nat → Option String)
    (topKcfg : Nat) (ssim cmerge : ℚ) (s : Store) (period : String)
    (nowT : Int) : Stage2Result :=
  let groups := getPendingMergeGroups s.items period
  if groups.isEmpty then ⟨s, "success", 0, 0, 0, "no_data"⟩
  else
    let gs := groups.take 200
    let loop := gs.enum.foldl
      (globalStep oracles topKcfg ssim cmerge period nowT) (s, 0, 0, [])
    match loop with
    | (s', mc, nc, newTopics) =>
      let s'' := newTopics.enum.foldl (batchStep batchFull nowT) s'
      ⟨s'', "success", groups.length, mc, nc, "success"⟩

/-! ## Statement-level predicates and concrete fixtures -/

/-- The only status change Stage 1 may make to a row: leave it alone, or
move it from `pending_event_merge` to `pending_global_merge`/`discarded`. -/
def allowedStep1 (s t : MergeStatus) : Prop :=
  t = s ∨ (s = MergeStatus.pendingEventMerge ∧
    (t = MergeStatus.pendingGlobalMerge ∨ t = MergeStatus.discarded))

/-- The only status change Stage 2 may make to a row: leave it alone, or
move it from `pending_global_merge` to `merged`. -/
def allowedStep2 (s t : MergeStatus) : Prop :=
  t = s ∨ (s = MergeStatus.pendingGlobalMerge ∧ t = MergeStatus.merged)

/-- How one row of `source_items` may evolve across one Stage 2 run: it is
untouched, or it was a `pending_global_merge` row flipped to `merged`. -/
def itemEvolves (a b : SourceItem) : Prop :=
  a.id = b.id ∧ (b = a ∨ (a.mergeStatus = MergeStatus.pendingGlobalMerge ∧
    b = { a with mergeStatus := MergeStatus.merged }))

/-- The pointwise view of `applyJudgeWrites`: the judge-phase writes as
seen by one row. -/
def judgeFold (gs : List JGroup) (it : SourceItem) : SourceItem :=
  gs.foldl (fun x g => judgeStep g x) it

/-- The pointwise view of `applyFilterWrites`. -/
def filterFold (minOcc : Nat) (gs : List JGroup) (it : SourceItem) :
    SourceItem :=
  gs.foldl (fun x g => filterStep minOcc g x) it

/-- The default `platform_weights` configuration
(`settings.py` lines 86-89). -/
def defaultPlatformWeights : List (String × ℚ) :=
  [("weibo", 6/5), ("zhihu", 11/10), ("baidu", 11/10), ("toutiao", 1),
   ("netease", 9/10), ("sina", 4/5), ("hupu", 4/5)]

/-- Fixture: a lone pending item with a raw heat score. -/
def loneHeatItem : SourceItem :=
  { id := 1, platform := "weibo", title := "单条热点", summary := none,
    fetchedAt := 100, heatValue := some 100, heatNormalized := none,
    period := "2025-11-07_AM", periodMergeGroupId := none,
    occurrenceCount := none, mergeStatus := MergeStatus.pendingEventMerge }

/-- Fixture: a window whose only item has already been merged. -/
def mergedOnlyDb : List SourceItem :=
  [{ loneHeatItem with id := 9, mergeStatus := MergeStatus.merged }]

/-- Fixtures: two dissimilar pending items (their similarity oracle is
constantly `0`). -/
def noiseItemA : SourceItem := { loneHeatItem with id := 11, title := "甲事件报道" }

def noiseItemB : SourceItem := { loneHeatItem with id := 12, title := "乙独立消息" }

def zeroSim : Nat → Nat → ℚ := fun _ _ => 0

def noVerdict : Nat → Option (Bool × ℚ) := fun _ => none

/-- Fixtures: two pending items reporting the same event (identical
titles, similarity oracle constantly `1`, confirming LLM verdict). -/
def dupItemA : SourceItem := { loneHeatItem with id := 21, title := "同一" }

def dupItemB : SourceItem := { loneHeatItem with id := 22, title := "同一" }

def oneSim : Nat → Nat → ℚ := fun _ _ => 1

def yesVerdict : Nat → Option (Bool × ℚ) := fun _ => some (true, 9/10)

/-- Fixture: one clustered item awaiting Stage 2. -/
def pgItem : SourceItem :=
  { loneHeatItem with
    id := 31, mergeStatus := MergeStatus.pendingGlobalMerge,
    periodMergeGroupId := some 5, heatNormalized := some 1 }

/-- Fixture: a store holding only `pgItem` and no topics. -/
def emptyTopicStore : Store := ⟨[pgItem], [], [], [], [], [], [], 1, 1⟩

/-- Fixture oracle: the representative has no stored vector and every LLM
call fails. -/
def noCandidateOracle : Nat → GroupOracle :=
  fun _ => ⟨⟨false, false, []⟩, none, none, none, none⟩

def noFull : Nat → Option String := fun _ => none

/-- Fixture: an existing active, recently active topic. -/
def oldTopic : Topic :=
  { id := 1, titleKey := "既有主题", firstSeen := 0, lastActive := 900,
    status := "active", intensityTotal := 2, currentHeatNormalized := 0,
    heatPercentage := 0, category := none, categoryConfidence := none,
    categoryMethod := none, summaryId := none }

/-- Fixture: the vector search returns one hit of distance `0.6`, i.e.
similarity `0.4`, below `Ssim = 0.5`. -/
def lowSimInput : RetrievalInput := ⟨true, true, [⟨some 1, 3/5⟩]⟩

def c3Store : Store := ⟨[], [oldTopic], [], [], [], [], [], 2, 1⟩

def c3Group : EventGroup :=
  ⟨some 7, [{ loneHeatItem with
      id := 41, mergeStatus := MergeStatus.pendingGlobalMerge,
      periodMergeGroupId := some 7 }]⟩

def c3Oracle : GroupOracle := ⟨lowSimInput, none, none, none, none⟩

/-- Fixture: the same retrieval inputs against a store with no topics at
all. -/
def c3bStore : Store := ⟨[], [], [], [], [], [], [], 1, 1⟩

/-- Fixture: a topic whose `last_active` (100) is newer than the incoming
cluster's items (fetched at 50). -/
def c4Topic : Topic := { oldTopic with id := 7, lastActive := 100 }

def c4Store : Store := ⟨[], [c4Topic], [], [], [], [], [], 8, 1⟩

def c4Items : List SourceItem :=
  [{ loneHeatItem with
      id := 51, mergeStatus := MergeStatus.pendingGlobalMerge,
      fetchedAt := 50, heatNormalized := some 1 }]

/-- Fixture: an existing period-heat row with `source_count = 5`. -/
def c5Row : PeriodHeatRow := ⟨7, "2025-11-07", "AM", 0, 0, 5⟩

def c5Store : Store := ⟨[], [c4Topic], [], [c5Row], [], [], [], 8, 1⟩

def c5Items : List SourceItem :=
  [{ loneHeatItem with
      id := 61, mergeStatus := MergeStatus.pendingGlobalMerge,
      heatNormalized := some 1 },
   { loneHeatItem with
      id := 62, mergeStatus := MergeStatus.pendingGlobalMerge,
      heatNormalized := some 1 }]

/-- Fixture: a topic with one attached node, an empty vector store and an
empty embeddings table. -/
def c6Topic : Topic := { oldTopic with id := 3 }

def c6Node : TopicNode := ⟨3, 71, 900⟩

def c6Store : Store := ⟨[], [c6Topic], [c6Node], [], [], [], [], 4, 1⟩

/-- Fixture: a topic whose one source item matches no classifier keyword,
so the rule pass scores `0`. -/
def c8Item : SourceItem :=
  { loneHeatItem with
    id := 81, title := "你好世界", mergeStatus := MergeStatus.merged }

def c8Topic : Topic := { oldTopic with id := 8 }

def c8Node : TopicNode := ⟨8, 81, 900⟩

def c8Store : Store := ⟨[c8Item], [c8Topic], [c8Node], [], [], [], [], 9, 1⟩

/-! ## Helper lemmas -/

theorem qmin_le_of_mem : ∀ {l : List ℚ} {x : ℚ}, x ∈ l → qmin l ≤ x := by
  intro l
  induction l with
  | nil => intro x hx; cases hx
  | cons a t ih =>
    intro x hx
    cases t with
    | nil =>
      rcases List.mem_cons.mp hx with rfl | hx'
      · exact le_of_eq rfl
      · cases hx'
    | cons b t2 =>
      rcases List.mem_cons.mp hx with rfl | hx'
      · exact min_le_left _ _
      · exact le_trans (min_le_right _ _) (ih hx')

theorem qmax_mem : ∀ {l : List ℚ}, l ≠ [] → qmax l ∈ l := by
  intro l
  induction l with
  | nil => intro h; exact absurd rfl h
  | cons a t ih =>
    intro _
    cases t with
    | nil => simp [qmax]
    | cons b t2 =>
      rcases max_choice a (qmax (b :: t2)) with h | h
      · rw [show qmax (a :: b :: t2) = max a (qmax (b :: t2)) from rfl, h]
        exact List.mem_cons_self _ _
      · rw [show qmax (a :: b :: t2) = max a (qmax (b :: t2)) from rfl, h]
        exact List.mem_cons_of_mem _ (ih (by simp))

theorem mem_heatsOfPlatform {items : List SourceItem} {it : SourceItem}
    {h : ℚ} (hmem : it ∈ items) (hv : it.heatValue = some h) :
    h ∈ heatsOfPlatform items it.platform := by
  unfold heatsOfPlatform
  exact List.mem_filterMap.mpr ⟨it, List.mem_filter.mpr ⟨hmem, by simp⟩, hv⟩

theorem heatsOfPlatform_sub {items : List SourceItem} {p : String} {h : ℚ}
    (hh : h ∈ heatsOfPlatform items p) :
    ∃ b ∈ items, b.platform = p ∧ b.heatValue = some h := by
  unfold heatsOfPlatform at hh
  rcases List.mem_filterMap.mp hh with ⟨b, hbf, hbv⟩
  rcases List.mem_filter.mp hbf with ⟨hbm, hbp⟩
  exact ⟨b, hbm, by simpa using hbp, hbv⟩

theorem minmaxVal_nonneg {items : List SourceItem} {it : SourceItem}
    (hmem : it ∈ items) : 0 ≤ minmaxVal items it := by
  unfold minmaxVal
  by_cases he : (heatsOfPlatform items it.platform).isEmpty
  · simp only [he, if_true]; norm_num
  · simp only [he, if_false]
    cases hv : it.heatValue with
    | none => norm_num
    | some h =>
      have hne : heatsOfPlatform items it.platform ≠ [] := by
        simpa [List.isEmpty_iff] using he
      by_cases hmx : qmax (heatsOfPlatform items it.platform) =
          qmin (heatsOfPlatform items it.platform)
      · simp only [hmx, if_true]; norm_num
      · simp only [hmx, if_false]
        have hmn_le : qmin (heatsOfPlatform items it.platform) ≤ h :=
          qmin_le_of_mem (mem_heatsOfPlatform hmem hv)
        have hmm : qmin (heatsOfPlatform items it.platform) ≤
            qmax (heatsOfPlatform items it.platform) :=
          qmin_le_of_mem (qmax_mem hne)
        exact div_nonneg (by linarith) (by linarith)

theorem exists_minmaxVal_pos {items : List SourceItem} (hne : items ≠ []) :
    ∃ it ∈ items, 0 < minmaxVal items it := by
  rcases List.exists_mem_of_ne_nil items hne with ⟨a, ha⟩
  by_cases he : (heatsOfPlatform items a.platform).isEmpty
  · exact ⟨a, ha, by unfold minmaxVal; simp only [he, if_true]; norm_num⟩
  · have hne' : heatsOfPlatform items a.platform ≠ [] := by
      simpa [List.isEmpty_iff] using he
    rcases heatsOfPlatform_sub (qmax_mem hne') with ⟨b, hbm, hbp, hbv⟩
    refine ⟨b, hbm, ?_⟩
    unfold minmaxVal
    rw [hbp]
    simp only [he, if_false, hbv]
    by_cases hmx : qmax (heatsOfPlatform items a.platform) =
        qmin (heatsOfPlatform items a.platform)
    · simp only [hmx, if_true]; norm_num
    · simp only [hmx, if_false]
      have hmm : qmin (heatsOfPlatform items a.platform) ≤
          qmax (heatsOfPlatform items a.platform) :=
        qmin_le_of_mem (qmax_mem hne')
      have hpos : 0 < qmax (heatsOfPlatform items a.platform) -
          qmin (heatsOfPlatform items a.platform) := by
        rcases lt_or_eq_of_le hmm with h | h
        · linarith
        · exact absurd h.symm hmx
      exact div_pos hpos hpos

theorem lookupWeight_pos {weights : List (String × ℚ)} {p : String}
    (hw : ∀ pr ∈ weights, 0 < pr.2) : 0 < lookupWeight weights p := by
  unfold lookupWeight
  cases hf : weights.find? (fun pr => pr.1 == p) with
  | none => norm_num
  | some pr =>
    have := hw pr (List.mem_of_find?_eq_some hf)
    simpa using this

theorem totalWeight_pos {weights : List (String × ℚ)} (hne : weights ≠ [])
    (hw : ∀ pr ∈ weights, 0 < pr.2) : 0 < totalWeight weights := by
  unfold totalWeight
  induction weights with
  | nil => exact absurd rfl hne
  | cons a t ih =>
    simp only [List.map_cons, List.sum_cons]
    have ha : 0 < a.2 := hw a (List.mem_cons_self _ _)
    have ht : 0 ≤ (t.map (·.2)).sum := by
      apply List.sum_nonneg
      intro x hx
      rcases List.mem_map.mp hx with ⟨b, hb, rfl⟩
      exact le_of_lt (hw b (List.mem_cons_of_mem _ hb))
    linarith

theorem weightedVal_nonneg {weights : List (String × ℚ)}
    {items : List SourceItem} {it : SourceItem} (hmem : it ∈ items)
    (hw : ∀ pr ∈ weights, 0 < pr.2) (htw : 0 < totalWeight weights) :
    0 ≤ weightedVal weights items it := by
  unfold weightedVal
  have h1 := minmaxVal_nonneg hmem
  have h2 := lookupWeight_pos (p := it.platform) hw
  positivity

theorem weightedVal_pos {weights : List (String × ℚ)}
    {items : List SourceItem} {it : SourceItem}
    (hw : ∀ pr ∈ weights, 0 < pr.2) (htw : 0 < totalWeight weights)
    (hpos : 0 < minmaxVal items it) : 0 < weightedVal weights items it := by
  unfold weightedVal
  have h2 := lookupWeight_pos (p := it.platform) hw
  positivity

theorem list_sum_pos_of_mem_pos {l : List ℚ} (hnn : ∀ x ∈ l, 0 ≤ x)
    {y : ℚ} (hy : y ∈ l) (hypos : 0 < y) : 0 < l.sum := by
  induction l with
  | nil => cases hy
  | cons a t ih =>
    simp only [List.sum_cons]
    rcases List.mem_cons.mp hy with rfl | hy'
    · have : 0 ≤ t.sum := List.sum_nonneg fun x hx =>
        hnn x (List.mem_cons_of_mem _ hx)
      linarith
    · have ha : 0 ≤ a := hnn a (List.mem_cons_self _ _)
      have := ih (fun x hx => hnn x (List.mem_cons_of_mem _ hx)) hy'
      linarith

theorem totalHeat_pos {weights : List (String × ℚ)} {items : List SourceItem}
    (hne : items ≠ []) (hwne : weights ≠ []) (hw : ∀ pr ∈ weights, 0 < pr.2) :
    0 < totalHeat weights items := by
  have htw := totalWeight_pos hwne hw
  rcases exists_minmaxVal_pos hne with ⟨b, hbm, hbpos⟩
  unfold totalHeat
  apply list_sum_pos_of_mem_pos
  · intro x hx
    rcases List.mem_map.mp hx with ⟨it, hit, rfl⟩
    exact weightedVal_nonneg hit hw htw
  · exact List.mem_map.mpr ⟨b, hbm, rfl⟩
  · exact weightedVal_pos hw htw hbpos

theorem list_sum_map_div {α : Type} (l : List α) (f : α → ℚ) (c : ℚ) :
    (l.map (fun x => f x / c)).sum = (l.map f).sum / c := by
  induction l with
  | nil => simp
  | cons a t ih => simp [ih, add_div]

theorem isPendingEventOf_heatUpd (period : String)
    (weights : List (String × ℚ)) (pend : List SourceItem) (it : SourceItem) :
    isPendingEventOf period (heatUpd weights pend it) =
      isPendingEventOf period it := rfl

/-- C2 — After the Heat Normalizer runs on a window containing at least one
`pending_event_merge` item, the `normalizedHeat` values of those items sum
to exactly `1` (floats modelled as exact rationals), provided the
configured platform weights are positive (as the defaults are). -/
theorem heat_normalization_window_sums_to_one
    (weights : List (String × ℚ)) (db : List SourceItem) (period : String)
    (hwne : weights ≠ []) (hw : ∀ pr ∈ weights, 0 < pr.2)
    (hne : getPendingItems db period ≠ []) :
    (((normalizePeriodHeat weights db period).filter
        (isPendingEventOf period)).map
      (fun it => it.heatNormalized.getD 0)).sum = 1 := by
  have hT := totalHeat_pos hne hwne hw
  have hie : (getPendingItems db period).isEmpty = false := by
    cases h : getPendingItems db period with
    | nil => exact absurd h hne
    | cons a t => rfl
  have h1 : (normalizePeriodHeat weights db period).filter
      (isPendingEventOf period) =
      (getPendingItems db period).map
        (heatUpd weights (getPendingItems db period)) := by
    simp only [normalizePeriodHeat, hie, Bool.false_eq_true, if_false]
    rw [List.filter_map]
    have h2 : db.filter ((isPendingEventOf period) ∘ (fun it =>
        if isPendingEventOf period it then
          heatUpd weights (getPendingItems db period) it
        else it)) = db.filter (isPendingEventOf period) := by
      apply List.filter_congr
      intro x _
      by_cases hx : isPendingEventOf period x
      · simp only [Function.comp_apply, if_pos hx]
        rfl
      · simp only [Function.comp_apply, if_neg hx]
    rw [h2]
    show (getPendingItems db period).map _ = _
    apply List.map_congr_left
    intro it hit
    have : isPendingEventOf period it = true :=
      (List.mem_filter.mp hit).2
    rw [if_pos this]
  rw [h1, List.map_map]
  have h3 : (getPendingItems db period).map ((fun it =>
      it.heatNormalized.getD 0) ∘
        (heatUpd weights (getPendingItems db period))) =
      (getPendingItems db period).map (fun it =>
        weightedVal weights (getPendingItems db period) it /
          totalHeat weights (getPendingItems db period)) := by
    apply List.map_congr_left
    intro it _
    simp only [Function.comp_apply, heatUpd, Option.getD_some]
    unfold finalHeatVal
    rw [if_pos hT]
  rw [h3, list_sum_map_div]
  exact div_self (ne_of_gt hT)

/-- C2 witness: a window holding the single item `loneHeatItem`
(`rawHeat = 100`) under the default platform weights: the hypotheses hold,
the window sum is `1`, and the lone item's `normalizedHeat` is exactly
`1`. -/
theorem heat_normalization_window_sums_to_one_witness :
    getPendingItems [loneHeatItem] "2025-11-07_AM" ≠ [] ∧
    (((normalizePeriodHeat defaultPlatformWeights [loneHeatItem]
        "2025-11-07_AM").filter (isPendingEventOf "2025-11-07_AM")).map
      (fun it => it.heatNormalized.getD 0)).sum = 1 ∧
    (normalizePeriodHeat defaultPlatformWeights [loneHeatItem]
        "2025-11-07_AM").map (·.heatNormalized) = [some 1] := by
  refine ⟨by decide,
    heat_normalization_window_sums_to_one defaultPlatformWeights [loneHeatItem]
      "2025-11-07_AM" (by decide)
      (by intro pr hpr; fin_cases hpr <;> norm_num [defaultPlatformWeights])
      (by decide), ?_⟩
  norm_num [normalizePeriodHeat, getPendingItems, isPendingEventOf, heatUpd,
    finalHeatVal, totalHeat, weightedVal, minmaxVal, heatsOfPlatform, qmin,
    qmax, lookupWeight, totalWeight, loneHeatItem, defaultPlatformWeights,
    List.filter, List.filterMap]

/-- C9 — Running Stage 1 on a window with no `pending_event_merge` items
is a no-op: the table is untouched, no LLM call is made, and the run
record is finalized as `success` with `input_count = 0` (the returned
result dict carries `status = "no_data"`). -/
theorem stage1_empty_window_noop (simM : Nat → Nat → ℚ)
    (verdict : Nat → Option (Bool × ℚ)) (tvec tjac : ℚ) (minOcc : Nat)
    (db : List SourceItem) (period : String)
    (hempty : getPendingItems db period = []) :
    runEventMerge simM verdict tvec tjac minOcc db period =
      ⟨db, "success", 0, 0, 0, "no_data"⟩ := by
  simp [runEventMerge, hempty]

/-- C9 witness: a window whose only item is already `merged` (a re-run
after Stage 1 has completed) takes the no-op path. -/
theorem stage1_empty_window_noop_witness :
    getPendingItems mergedOnlyDb "2025-11-07_AM" = [] ∧
    runEventMerge zeroSim noVerdict (17/20) (3/5) 2 mergedOnlyDb
      "2025-11-07_AM" =
      ⟨mergedOnlyDb, "success", 0, 0, 0, "no_data"⟩ :=
  ⟨by decide,
    stage1_empty_window_noop zeroSim noVerdict (17/20) (3/5) 2 mergedOnlyDb
      "2025-11-07_AM" (by decide)⟩

theorem find?_map_keyed {α : Type} (p : α → Bool) (f : α → α)
    (hpf : ∀ x, p x = true → p (f x) = true) :
    ∀ l : List α,
      (l.map (fun x => if p x then f x else x)).find? p = (l.find? p).map f := by
  intro l
  induction l with
  | nil => rfl
  | cons a t ih =>
    by_cases hp : p a = true
    · simp only [List.map_cons, if_pos hp, List.find?_cons_of_pos _ (hpf a hp),
        List.find?_cons_of_pos _ hp]
      rfl
    · have hp' : ¬ p a := by simpa using hp
      simp only [List.map_cons, if_neg hp', List.find?_cons_of_neg _ hp', ih]

/-- C5 (amended) — When Stage 2 upserts a `PeriodHeat` row for a key that
already has a row, the normalized heat (and percentage) are overwritten
with the value recomputed from the cluster, but the stored `source_count`
is **incremented by the cluster size**, not overwritten. -/
theorem periodheat_upsert_overwrites_heat_adds_count
    (s : Store) (t : Topic) (items : List SourceItem) (period : String)
    (r : PeriodHeatRow)
    (hfind : s.periodHeats.find?
      (isHeatRowFor t.id (periodDate period) (periodTag period)) = some r) :
    (updateTopicHeat s t items period).1.periodHeats.find?
        (isHeatRowFor t.id (periodDate period) (periodTag period)) =
      some { r with
        heatNormalized := clusterMeanHeat items,
        heatPercentage := clusterMeanHeat items * 100,
        sourceCount := r.sourceCount + items.length } := by
  unfold updateTopicHeat
  simp only [hfind, Option.isSome_some, if_true]
  rw [find?_map_keyed (isHeatRowFor t.id (periodDate period) (periodTag period))
    (fun r => { r with
      heatNormalized := clusterMeanHeat items,
      heatPercentage := clusterMeanHeat items * 100,
      sourceCount := r.sourceCount + items.length })
    (fun x hx => hx) s.periodHeats]
  rw [hfind]
  rfl

/-- C5 counterexample: an existing row with `source_count = 5` receives a
cluster of 2 items; the stored count becomes `5 + 2 = 7`, not the
recomputed cluster count `2` the claim requires. -/
theorem periodheat_count_not_overwritten_cx :
    ((updateTopicHeat c5Store c4Topic c5Items "2025-11-07_AM").1.periodHeats.map
        (·.sourceCount)) = [7] ∧ c5Items.length = 2 ∧ (7 : Nat) ≠ 2 := by
  refine ⟨?_, by decide, by decide⟩
  norm_num +decide [updateTopicHeat, c5Store, c4Topic, c5Items, c5Row,
    oldTopic, isHeatRowFor, periodDate, periodTag, splitUnderscore,
    clusterMeanHeat, loneHeatItem, List.find?]

/-- C5 witness for the amended claim, at the same concrete input. -/
theorem periodheat_upsert_overwrites_heat_adds_count_witness :
    c5Store.periodHeats.find? (isHeatRowFor c4Topic.id
        (periodDate "2025-11-07_AM") (periodTag "2025-11-07_AM")) = some c5Row ∧
    (updateTopicHeat c5Store c4Topic c5Items "2025-11-07_AM").1.periodHeats.find?
        (isHeatRowFor c4Topic.id (periodDate "2025-11-07_AM")
          (periodTag "2025-11-07_AM")) =
      some { c5Row with
        heatNormalized := clusterMeanHeat c5Items,
        heatPercentage := clusterMeanHeat c5Items * 100,
        sourceCount := c5Row.sourceCount + c5Items.length } := by
  have h : c5Store.periodHeats.find? (isHeatRowFor c4Topic.id
      (periodDate "2025-11-07_AM") (periodTag "2025-11-07_AM")) = some c5Row := by
    decide
  exact ⟨h, periodheat_upsert_overwrites_heat_adds_count c5Store c4Topic
    c5Items "2025-11-07_AM" c5Row h⟩

theorem find?_updateTopicRow (topics : List Topic) (t' : Topic) (tid : Nat)
    (hid : t'.id = tid) :
    (updateTopicRow topics t').find? (fun x => x.id == tid) =
      (topics.find? (fun x => x.id == tid)).map (fun _ => t') := by
  unfold updateTopicRow
  induction topics with
  | nil => rfl
  | cons a l ih =>
    by_cases ha : (a.id == tid) = true
    · have ha' : (a.id == t'.id) = true := by rw [hid]; exact ha
      rw [List.map_cons, if_pos ha',
        List.find?_cons_of_pos (p := fun x : Topic => x.id == tid) _
          (show (t'.id == tid) = true by simp [hid]),
        List.find?_cons_of_pos (p := fun x : Topic => x.id == tid) _ ha]
      rfl
    · have ha' : ¬ (a.id == t'.id) = true := by rw [hid]; exact ha
      rw [List.map_cons, if_neg ha',
        List.find?_cons_of_neg (p := fun x : Topic => x.id == tid) _ ha,
        List.find?_cons_of_neg (p := fun x : Topic => x.id == tid) _ ha]
      exact ih

theorem updateTopicHeat_topics (s : Store) (t : Topic)
    (items : List SourceItem) (period : String) :
    (updateTopicHeat s t items period).1.topics = s.topics := by
  unfold updateTopicHeat
  dsimp only
  split <;> rfl

theorem updateTopicHeat_snd (s : Store) (t : Topic) (items : List SourceItem)
    (period : String) :
    (updateTopicHeat s t items period).2 =
      { t with
        currentHeatNormalized := clusterMeanHeat items,
        heatPercentage := clusterMeanHeat items * 100 } := rfl

theorem createPlaceholderSummary_topics_find (s : Store) (t' : Topic)
    (nowT : Int) (tid : Nat) (hid : t'.id = tid) :
    (createPlaceholderSummary s t' nowT).1.topics.find? (fun x => x.id == tid) =
      (s.topics.find? (fun x => x.id == tid)).map
        (fun _ => { t' with summaryId := some s.nextSummaryId }) := by
  unfold createPlaceholderSummary
  exact find?_updateTopicRow s.topics _ tid hid

/-- Every branch of `_ensure_summary_vector` leaves the tracked topic's
`last_active` unchanged: it either writes nothing to `topics`, or replaces
the row with a copy that differs only in `summary_id`. -/
theorem ensureSummaryVector_topics_find (s : Store) (t' : Topic) (nowT : Int)
    (tid : Nat) (hid : t'.id = tid) (u : Topic)
    (hfind : s.topics.find? (fun x => x.id == tid) = some u) :
    ∃ v, (ensureSummaryVector s t' nowT).topics.find? (fun x => x.id == tid) =
        some v ∧ v.lastActive = u.lastActive ∨
      (ensureSummaryVector s t' nowT).topics.find? (fun x => x.id == tid) =
        some v ∧ v.lastActive = t'.lastActive := by
  unfold ensureSummaryVector
  cases t'.summaryId with
  | some sid =>
    by_cases h1 : s.vectorStore.any
        (fun e => e.objectType == "topic_summary" && e.objectId == sid) = true
    · exact ⟨u, Or.inl ⟨by simp only [h1, if_pos]; exact hfind, rfl⟩⟩
    · by_cases h2 : ((s.summaries.find? (fun r => r.id == sid)).isSome) = true
      · refine ⟨u, Or.inl ⟨?_, rfl⟩⟩
        simp only [h1, h2]
        simpa using hfind
      · refine ⟨{ t' with summaryId := some s.nextSummaryId }, Or.inr ⟨?_, rfl⟩⟩
        simp only [h1, h2]
        simp only [Bool.false_eq_true, if_false]
        rw [createPlaceholderSummary_topics_find s t' nowT tid hid, hfind]
        rfl
  | none =>
    refine ⟨{ t' with summaryId := some s.nextSummaryId }, Or.inr ⟨?_, rfl⟩⟩
    rw [createPlaceholderSummary_topics_find s t' nowT tid hid, hfind]
    rfl

theorem generateFullSummary_topics_lastActive (s : Store) (v : Topic)
    (llm : Option String) (nowT : Int) (tid : Nat) (hid : v.id = tid)
    (hfind : s.topics.find? (fun x => x.id == tid) = some v) :
    ∃ w, (generateFullSummary s v llm nowT).1.topics.find?
        (fun x => x.id == tid) = some w ∧ w.lastActive = v.lastActive := by
  unfold generateFullSummary
  by_cases hn : (s.nodes.filter (fun n => n.topicId == v.id)).isEmpty = true
  · simp only [hn, if_pos]
    refine ⟨{ v with summaryId := some s.nextSummaryId }, ?_, rfl⟩
    rw [createPlaceholderSummary_topics_find s v nowT tid hid, hfind]
    rfl
  · simp only [hn, Bool.false_eq_true, if_false]
    cases llm with
    | some text =>
      refine ⟨{ v with summaryId := some s.nextSummaryId }, ?_, rfl⟩
      dsimp only
      rw [find?_updateTopicRow s.topics
        { v with summaryId := some s.nextSummaryId } tid hid, hfind]
      rfl
    | none =>
      refine ⟨{ v with summaryId := some s.nextSummaryId }, ?_, rfl⟩
      rw [createPlaceholderSummary_topics_find s v nowT tid hid, hfind]
      rfl

theorem generateIncrementalSummary_topics_lastActive (s : Store) (v : Topic)
    (cur : SummaryRow) (newNodes : List TopicNode) (llm : Option IncResult)
    (nowT : Int) (tid : Nat) (hid : v.id = tid)
    (hfind : s.topics.find? (fun x => x.id == tid) = some v) :
    ∃ w, (generateIncrementalSummary s v cur newNodes llm nowT).1.topics.find?
        (fun x => x.id == tid) = some w ∧ w.lastActive = v.lastActive := by
  unfold generateIncrementalSummary
  by_cases hu : shouldUpdate cur newNodes nowT = true
  · simp only [hu, Bool.not_true, Bool.false_eq_true, if_false]
    cases llm with
    | some r =>
      by_cases hr : r.needsUpdate = true
      · simp only [hr, Bool.not_true, Bool.false_eq_true, if_false]
        refine ⟨{ v with summaryId := some s.nextSummaryId }, ?_, rfl⟩
        dsimp only
        rw [find?_updateTopicRow s.topics
          { v with summaryId := some s.nextSummaryId } tid hid, hfind]
        rfl
      · have hr' : r.needsUpdate = false := by simpa using hr
        simp only [hr', Bool.not_false, if_true]
        exact ⟨v, hfind, rfl⟩
    | none => exact ⟨v, hfind, rfl⟩
  · have hu' : shouldUpdate cur newNodes nowT = false := by simpa using hu
    simp only [hu', Bool.not_false, if_true]
    exact ⟨v, hfind, rfl⟩

theorem generateOrUpdateSummary_topics_lastActive (s : Store) (v : Topic)
    (newNodes : List TopicNode) (llmFull : Option String)
    (llmInc : Option IncResult) (nowT : Int) (tid : Nat) (hid : v.id = tid)
    (hfind : s.topics.find? (fun x => x.id == tid) = some v) :
    ∃ w, (generateOrUpdateSummary s v newNodes llmFull llmInc nowT).1.topics.find?
        (fun x => x.id == tid) = some w ∧ w.lastActive = v.lastActive := by
  unfold generateOrUpdateSummary
  cases hls : latestSummary (s.summaries.filter (fun r => r.topicId == v.id)) with
  | none =>
    rcases generateFullSummary_topics_lastActive s v llmFull nowT tid hid hfind
      with ⟨w, hw, hl⟩
    exact ⟨w, hw, hl⟩
  | some cur =>
    exact generateIncrementalSummary_topics_lastActive s v cur newNodes
      llmInc nowT tid hid hfind

/-- C4 (amended) — When Stage 2 attaches a cluster to an existing topic,
the topic's `last_active` is set to the cluster's maximum `fetched_at`
alone; the previous value is not consulted, so `last_active` can
decrease. -/
theorem merge_to_topic_sets_lastActive_to_cluster_max (s : Store) (tid : Nat)
    (items : List SourceItem) (period : String) (llmFull : Option String)
    (llmInc : Option IncResult) (nowT : Int) (t : Topic)
    (hfind : s.topics.find? (fun x => x.id == tid) = some t) :
    ((mergeToTopic s tid items period llmFull llmInc nowT).topics.find?
        (fun x => x.id == tid)).map (·.lastActive) =
      some (maxFetchedAt items) := by
  have hbeq : t.id = tid := by simpa using List.find?_some hfind
  unfold mergeToTopic
  rw [hfind]
  dsimp only
  set t1 : Topic := { t with
    lastActive := maxFetchedAt items,
    intensityTotal := t.intensityTotal + items.length } with ht1
  set s1 : Store := { s with
    nodes := s.nodes ++ items.map (fun it => ⟨tid, it.id, nowT⟩),
    items := setMergedByIds s.items (items.map (·.id)) } with hs1
  set t2 : Topic := (updateTopicHeat s1 t1 items period).2 with ht2
  set s2 : Store := (updateTopicHeat s1 t1 items period).1 with hs2
  set s3 : Store := { s2 with topics := updateTopicRow s2.topics t2 } with hs3
  set s4 : Store := ensureSummaryVector s3 t2 nowT with hs4
  have ht2id : t2.id = tid := by
    rw [ht2, updateTopicHeat_snd]
    exact hbeq
  have ht2la : t2.lastActive = maxFetchedAt items := by
    rw [ht2, updateTopicHeat_snd]
  have hs3find : s3.topics.find? (fun x => x.id == tid) = some t2 := by
    rw [hs3]
    show (updateTopicRow s2.topics t2).find? (fun x => x.id == tid) = some t2
    rw [find?_updateTopicRow s2.topics t2 tid ht2id, hs2,
      updateTopicHeat_topics]
    show ((s1.topics.find? fun x => x.id == tid)).map _ = _
    rw [show s1.topics = s.topics from rfl, hfind]
    rfl
  rcases ensureSummaryVector_topics_find s3 t2 nowT tid ht2id t2 hs3find with
    ⟨v4, hv4c⟩
  have hv4 : s4.topics.find? (fun x => x.id == tid) = some v4 ∧
      v4.lastActive = t2.lastActive := by
    rcases hv4c with ⟨h1, h2⟩ | ⟨h1, h2⟩
    · exact ⟨h1, h2⟩
    · exact ⟨h1, h2⟩
  have hv4id : v4.id = tid := by simpa using List.find?_some hv4.1
  have htcur : (s4.topics.find? (fun x => x.id == tid)).getD t2 = v4 := by
    rw [hv4.1]
    rfl
  rw [htcur]
  rcases generateOrUpdateSummary_topics_lastActive s4 v4
      (s4.nodes.filter (fun n =>
        n.topicId == tid && (items.map (·.id)).contains n.sourceItemId))
      llmFull llmInc nowT tid hv4id hv4.1 with ⟨w, hw, hlw⟩
  rw [hw]
  show some w.lastActive = some (maxFetchedAt items)
  rw [hlw, hv4.2, ht2la]

/-- C4 counterexample: topic 7 has `last_active = 100`; merging a cluster
whose only item was fetched at `50` sets `last_active = 50`, which is not
`max 100 50` — the field decreases. -/
theorem merge_lastActive_decreases_cx :
    ((mergeToTopic c4Store 7 c4Items "2025-11-07_AM" none none 1000).topics.map
      (·.lastActive)) = [50] ∧ ¬ ((50 : Int) = max 100 50) ∧ (50 : Int) < 100 := by
  refine ⟨?_, by decide, by decide⟩
  norm_num +decide [mergeToTopic, c4Store, c4Topic, c4Items, oldTopic,
    loneHeatItem, maxFetchedAt, imax, setMergedByIds, updateTopicHeat,
    isHeatRowFor, periodDate, periodTag, splitUnderscore, clusterMeanHeat,
    updateTopicRow, ensureSummaryVector, createPlaceholderSummary,
    generateOrUpdateSummary, latestSummary, generateIncrementalSummary,
    shouldUpdate, generateFullSummary, List.find?, List.filter]

/-- C4 witness for the amended claim, at the same concrete input. -/
theorem merge_to_topic_sets_lastActive_witness :
    c4Store.topics.find? (fun x => x.id == 7) = some c4Topic ∧
    ((mergeToTopic c4Store 7 c4Items "2025-11-07_AM" none none 1000).topics.find?
        (fun x => x.id == 7)).map (·.lastActive) = some (maxFetchedAt c4Items) :=
  ⟨by decide,
    merge_to_topic_sets_lastActive_to_cluster_max c4Store 7 c4Items
      "2025-11-07_AM" none none 1000 c4Topic (by decide)⟩

/-- C6 — failing run, executed: topic 3 has one attached node and the
summary LLM call succeeds, so `generate_full_summary` persists a
`method = "full"` Summary row and repoints the topic's `summary_id`; yet
the Vector Store and the relational `embeddings` table stay empty — no
`topic_summary` embedding is ever computed or persisted (the
`_generate_summary_embedding` method the write would need does not exist
in `SummaryService`), violating the claimed invariant. -/
theorem full_summary_writes_no_topic_summary_vector :
    ((generateFullSummary c6Store c6Topic (some "生成的全量摘要")
        1000).1.summaries.map (fun row => (row.method, row.topicId))) =
      [("full", 3)] ∧
    (generateFullSummary c6Store c6Topic (some "生成的全量摘要")
      1000).1.vectorStore = [] ∧
    (generateFullSummary c6Store c6Topic (some "生成的全量摘要")
      1000).1.embedTable = [] ∧
    ((generateFullSummary c6Store c6Topic (some "生成的全量摘要")
        1000).1.topics.map (·.summaryId)) = [some 1] :=
  ⟨by decide, by decide, by decide, by decide⟩

/-- C8 (amended) — When the rule pass is not accepted and the fallback LLM
call fails, the topic is classified `current_affairs` with confidence
`0.3`, but the recorded method is `"llm"` (from `classify_topic` line
125); `"default"` is recorded only for topics with no nodes (line 94). -/
theorem classify_llm_failure_defaults_current_affairs (s : Store) (t : Topic)
    (hn : (topicKeyNodes s t.id).isEmpty = false)
    (hrule : (ruleBasedClassification (classifierText s t.id)
      (classifierPlatforms s t.id)).2 < 3/5) :
    classifyTopic s t none false = ("current_affairs", 3/10, "llm") := by
  unfold classifyTopic
  dsimp only
  rw [hn]
  simp only [Bool.false_eq_true, if_false]
  rw [if_neg (not_le.mpr hrule)]

/-- C8 counterexample: topic 8's only text matches no keyword, the rule
pass scores `0 < 0.6`, and the LLM call raises; the written method is
`"llm"`, not the `"default"` the claim requires. -/
theorem classify_llm_failure_method_not_default_cx :
    classifyTopic c8Store c8Topic none false =
      ("current_affairs", 3/10, "llm") ∧
    ¬ ((classifyTopic c8Store c8Topic none false).2.2 = "default") := by
  have h : classifyTopic c8Store c8Topic none false =
      ("current_affairs", 3/10, "llm") := by
    norm_num +decide [classifyTopic, topicKeyNodes, sortDescBy, insertDescBy,
      classifierText, classifierItems, classifierPlatforms, joinWithSpace,
      ruleBasedClassification, entScoreRaw, caScoreRaw, spScoreRaw,
      keywordScore, containsSub, seqInfix, seqPrefix, entertainmentStrong,
      entertainmentMedium, currentAffairsStrong, currentAffairsMedium,
      sportsEsportsStrong, sportsEsportsMedium, c8Store, c8Topic, c8Item,
      c8Node, oldTopic, loneHeatItem, List.find?, List.filter, List.dedup,
      List.foldr]
  exact ⟨h, by rw [h]; decide⟩

/-- C8 witness for the amended claim, at the same concrete input. -/
theorem classify_llm_failure_defaults_witness :
    (topicKeyNodes c8Store c8Topic.id).isEmpty = false ∧
    classifyTopic c8Store c8Topic none false =
      ("current_affairs", 3/10, "llm") := by
  have h1 : (topicKeyNodes c8Store c8Topic.id).isEmpty = false := by decide
  have h2 : (ruleBasedClassification (classifierText c8Store c8Topic.id)
      (classifierPlatforms c8Store c8Topic.id)).2 < 3/5 := by
    norm_num +decide [topicKeyNodes, sortDescBy, insertDescBy, classifierText,
      classifierItems, classifierPlatforms, joinWithSpace,
      ruleBasedClassification, entScoreRaw, caScoreRaw, spScoreRaw,
      keywordScore, containsSub, seqInfix, seqPrefix, entertainmentStrong,
      entertainmentMedium, currentAffairsStrong, currentAffairsMedium,
      sportsEsportsStrong, sportsEsportsMedium, c8Store, c8Topic, c8Item,
      c8Node, oldTopic, loneHeatItem, List.find?, List.filter, List.dedup,
      List.foldr]
  exact ⟨h1, classify_llm_failure_defaults_current_affairs c8Store c8Topic h1 h2⟩

theorem foldl_cond_add_nonneg {α : Type} (f : α → Bool) (inc : ℚ)
    (hinc : 0 ≤ inc) :
    ∀ (l : List α) (start : ℚ), 0 ≤ start →
      0 ≤ l.foldl (fun acc x => if f x then acc + inc else acc) start := by
  intro l
  induction l with
  | nil => intro s hs; simpa using hs
  | cons a t ih =>
    intro s hs
    simp only [List.foldl_cons]
    by_cases ha : f a = true
    · rw [if_pos ha]; exact ih _ (by linarith)
    · rw [if_neg ha]; exact ih _ hs

theorem keywordScore_nonneg (kws : List String) (inc : ℚ) (hinc : 0 ≤ inc)
    (text : String) : 0 ≤ keywordScore kws inc text :=
  foldl_cond_add_nonneg (containsSub text) inc hinc kws 0 le_rfl

theorem entScoreRaw_nonneg (text : String) : 0 ≤ entScoreRaw text :=
  add_nonneg (keywordScore_nonneg _ _ (by norm_num) _)
    (keywordScore_nonneg _ _ (by norm_num) _)

theorem caScoreRaw_nonneg (text : String) : 0 ≤ caScoreRaw text :=
  add_nonneg (keywordScore_nonneg _ _ (by norm_num) _)
    (keywordScore_nonneg _ _ (by norm_num) _)

theorem spScoreRaw_nonneg (text : String) (platforms : List String) :
    0 ≤ spScoreRaw text platforms :=
  foldl_cond_add_nonneg (fun p => p == "hupu") (3/10) (by norm_num) platforms _
    (add_nonneg (keywordScore_nonneg _ _ (by norm_num) _)
      (keywordScore_nonneg _ _ (by norm_num) _))

theorem ruleConfidence_cases (text : String) (platforms : List String) :
    (ruleBasedClassification text platforms).2 = 0 ∨
      (ruleBasedClassification text platforms).2 = 1 := by
  unfold ruleBasedClassification
  dsimp only
  set e := entScoreRaw text with hE
  set c := caScoreRaw text with hC
  set s := spScoreRaw text platforms with hS
  have he : 0 ≤ e := entScoreRaw_nonneg text
  have hc : 0 ≤ c := caScoreRaw_nonneg text
  have hs : 0 ≤ s := spScoreRaw_nonneg text platforms
  have hem : e ≤ max e (max c s) := le_max_left _ _
  have hcm : c ≤ max e (max c s) :=
    le_trans (le_max_left _ _) (le_max_right _ _)
  have hsm : s ≤ max e (max c s) :=
    le_trans (le_max_right _ _) (le_max_right _ _)
  by_cases hm : 0 < max e (max c s)
  · simp only [if_pos hm]
    have hen1 : min (e / max e (max c s)) 1 ≤ 1 := min_le_right _ _
    have hcn1 : min (c / max e (max c s)) 1 ≤ 1 := min_le_right _ _
    have hsn1 : min (s / max e (max c s)) 1 ≤ 1 := min_le_right _ _
    have hone : min (e / max e (max c s)) 1 = 1 ∨
        min (c / max e (max c s)) 1 = 1 ∨
        min (s / max e (max c s)) 1 = 1 := by
      rcases max_choice e (max c s) with h | h
      · left
        have he' : 0 < e := by rw [h] at hm; exact hm
        rw [show e / max e (max c s) = 1 from by
          rw [h]; exact div_self (ne_of_gt he')]
        exact min_self 1
      · rcases max_choice c s with h2 | h2
        · right; left
          rw [show c / max e (max c s) = 1 by
            rw [h, h2] at hm ⊢
            exact div_self (ne_of_gt hm)]
          exact min_self 1
        · right; right
          rw [show s / max e (max c s) = 1 by
            rw [h, h2] at hm ⊢
            exact div_self (ne_of_gt hm)]
          exact min_self 1
    by_cases hb1 : min (c / max e (max c s)) 1 ≤ min (e / max e (max c s)) 1 ∧
        min (s / max e (max c s)) 1 ≤ min (e / max e (max c s)) 1
    · rw [if_pos hb1]
      have h1 : min (e / max e (max c s)) 1 = 1 := by
        rcases hone with h | h | h
        · exact h
        · linarith [hb1.1]
        · linarith [hb1.2]
      dsimp only
      rw [h1]
      norm_num
    · rw [if_neg hb1]
      push_neg at hb1
      by_cases hb2 : min (s / max e (max c s)) 1 ≤ min (c / max e (max c s)) 1
      · rw [if_pos hb2]
        have hce : min (e / max e (max c s)) 1 ≤ min (c / max e (max c s)) 1 := by
          by_cases hx : min (c / max e (max c s)) 1 ≤ min (e / max e (max c s)) 1
          · have := hb1 hx
            linarith
          · linarith [not_le.mp hx]
        have h1 : min (c / max e (max c s)) 1 = 1 := by
          rcases hone with h | h | h
          · linarith [hce]
          · exact h
          · linarith [hb2]
        dsimp only
        rw [h1]
        norm_num
      · rw [if_neg hb2]
        have hsc : min (c / max e (max c s)) 1 ≤ min (s / max e (max c s)) 1 :=
          le_of_lt (not_le.mp hb2)
        have hse : min (e / max e (max c s)) 1 ≤ min (s / max e (max c s)) 1 := by
          by_cases hx : min (c / max e (max c s)) 1 ≤ min (e / max e (max c s)) 1
          · have := hb1 hx
            linarith
          · linarith [not_le.mp hx]
        have h1 : min (s / max e (max c s)) 1 = 1 := by
          rcases hone with h | h | h
          · linarith [hse]
          · linarith [hsc]
          · exact h
        dsimp only
        rw [h1]
        norm_num
  · simp only [if_neg hm]
    have hm' : max e (max c s) ≤ 0 := not_lt.mp hm
    have he0 : e = 0 := le_antisymm (le_trans hem hm') he
    have hc0 : c = 0 := le_antisymm (le_trans hcm hm') hc
    have hs0 : s = 0 := le_antisymm (le_trans hsm hm') hs
    rw [he0, hc0, hs0]
    norm_num

/-- C10 — The rule pass can only return confidence exactly `0` or exactly
`1`: the best label's score is divided by the maximum score, so it
normalizes to `1` whenever anything matched and to `0` otherwise; hence a
rule result accepted against the `0.6` threshold always has confidence
exactly `1`. -/
theorem rule_confidence_is_zero_or_one (text : String)
    (platforms : List String) :
    ((ruleBasedClassification text platforms).2 = 0 ∨
      (ruleBasedClassification text platforms).2 = 1) ∧
    ((3/5 : ℚ) ≤ (ruleBasedClassification text platforms).2 →
      (ruleBasedClassification text platforms).2 = 1) := by
  refine ⟨ruleConfidence_cases text platforms, fun hle => ?_⟩
  rcases ruleConfidence_cases text platforms with h | h
  · rw [h] at hle
    norm_num at hle
  · exact h

/-- C10 witness: the text `"比赛"` matches one strong sports keyword, the
rule pass is accepted at threshold `0.6`, and the confidence is exactly
`1`. -/
theorem rule_confidence_is_zero_or_one_witness :
    (3/5 : ℚ) ≤ (ruleBasedClassification "比赛" []).2 ∧
    (ruleBasedClassification "比赛" []).2 = 1 := by
  have h : (ruleBasedClassification "比赛" []).2 = 1 := by
    norm_num +decide [ruleBasedClassification, entScoreRaw, caScoreRaw,
      spScoreRaw, keywordScore, containsSub, seqInfix, seqPrefix,
      entertainmentStrong, entertainmentMedium, currentAffairsStrong,
      currentAffairsMedium, sportsEsportsStrong, sportsEsportsMedium,
      List.foldl]
  exact ⟨by rw [h]; norm_num,
    (rule_confidence_is_zero_or_one "比赛" []).2 (by rw [h]; norm_num)⟩

theorem chromaLoop_all_low (topics : List Topic) (activeSince : Int)
    (ssim : ℚ) (topK : Nat) :
    ∀ (hits : List SearchHit) (seen : List Nat) (acc : List Candidate),
      (∀ h ∈ hits, 1 - h.distance < ssim) →
      chromaLoop topics activeSince ssim topK hits seen acc = acc := by
  intro hits
  induction hits with
  | nil => intro seen acc _; rfl
  | cons h rest ih =>
    intro seen acc hlow
    unfold chromaLoop
    by_cases hk : topK ≤ acc.length
    · rw [if_pos hk]
    · rw [if_neg hk]
      dsimp only
      rw [if_pos (hlow h (List.mem_cons_self _ _))]
      exact ih seen acc (fun x hx => hlow x (List.mem_cons_of_mem _ hx))

theorem retrieve_all_low (topics : List Topic) (nowT : Int)
    (inp : RetrievalInput) (topKcfg : Nat) (ssim : ℚ)
    (hvec : inp.hasVec = true)
    (hlow : ∀ h ∈ inp.hits, 1 - h.distance < ssim) :
    retrieveCandidateTopics topics nowT inp topKcfg ssim =
      recentActiveFallback topics (nowT - 180 * 86400) (min topKcfg 3) := by
  unfold retrieveCandidateTopics
  dsimp only
  rw [hvec]
  simp only [Bool.not_true, Bool.false_eq_true, if_false]
  by_cases hok : inp.searchOk = true
  · rw [if_pos hok,
      chromaLoop_all_low topics (nowT - 180 * 86400) ssim (min topKcfg 3)
        inp.hits [] [] hlow]
    simp
  · rw [if_neg hok]
    simp

theorem updateTopicRow_length (topics : List Topic) (t' : Topic) :
    (updateTopicRow topics t').length = topics.length :=
  List.length_map _ _

theorem createPlaceholderSummary_topics_length (s : Store) (t : Topic)
    (nowT : Int) :
    (createPlaceholderSummary s t nowT).1.topics.length = s.topics.length :=
  updateTopicRow_length _ _

theorem ensureSummaryVector_topics_length (s : Store) (t : Topic)
    (nowT : Int) :
    (ensureSummaryVector s t nowT).topics.length = s.topics.length := by
  unfold ensureSummaryVector
  cases t.summaryId with
  | none => exact createPlaceholderSummary_topics_length _ _ _
  | some sid =>
    dsimp only
    split
    · rfl
    · split
      · rfl
      · exact createPlaceholderSummary_topics_length _ _ _

theorem createNewTopic_snd (s : Store) (items : List SourceItem)
    (period : String) (clf : Option (String × ℚ)) (nowT : Int) :
    (createNewTopic s items period clf nowT).2 = s.nextTopicId := rfl

theorem createNewTopic_topics_length (s : Store) (items : List SourceItem)
    (period : String) (clf : Option (String × ℚ)) (nowT : Int) :
    (createNewTopic s items period clf nowT).1.topics.length =
      s.topics.length + 1 := by
  unfold createNewTopic
  dsimp only
  rw [updateTopicRow_length, ensureSummaryVector_topics_length]
  show (updateTopicRow _ _).length = _
  rw [updateTopicRow_length]
  show ((updateTopicHeat _ _ _ _).1).topics.length = _
  rw [updateTopicHeat_topics]
  simp

theorem isEmpty_false_of_ne_nil {α : Type} {l : List α} (h : l ≠ []) :
    l.isEmpty = false := by
  cases l with
  | nil => exact absurd rfl h
  | cons a t => rfl

/-- C3 (amended) — When every vector-store candidate falls below `Ssim`,
the Chroma pass yields nothing and `_retrieve_candidate_topics` falls back
to the most-recently-active topics; only when that fallback is empty does
the group skip the relation-judgement LLM and create a new topic, and
whenever the fallback is nonempty the LLM **is** called. -/
theorem low_similarity_falls_back_to_recent (s : Store) (g : EventGroup)
    (period : String) (o : GroupOracle) (topKcfg : Nat) (ssim cmerge : ℚ)
    (nowT : Int) (hvec : o.retr.hasVec = true)
    (hlow : ∀ h ∈ o.retr.hits, 1 - h.distance < ssim) :
    retrieveCandidateTopics s.topics nowT o.retr topKcfg ssim =
      recentActiveFallback s.topics (nowT - 180 * 86400) (min topKcfg 3) ∧
    (recentActiveFallback s.topics (nowT - 180 * 86400) (min topKcfg 3) = [] →
      (processEventGroup s g period o topKcfg ssim cmerge nowT).2 =
        ⟨"new", false, some s.nextTopicId⟩ ∧
      (processEventGroup s g period o topKcfg ssim cmerge nowT).1.topics.length =
        s.topics.length + 1) ∧
    (recentActiveFallback s.topics (nowT - 180 * 86400) (min topKcfg 3) ≠ [] →
      (processEventGroup s g period o topKcfg ssim cmerge nowT).2.llmCalled =
        true) := by
  have hr := retrieve_all_low s.topics nowT o.retr topKcfg ssim hvec hlow
  refine ⟨hr, fun hemp => ?_, fun hne => ?_⟩
  · unfold processEventGroup
    dsimp only
    rw [hr, hemp]
    simp only [List.isEmpty_nil, if_true]
    exact ⟨rfl, createNewTopic_topics_length _ _ _ _ _⟩
  · unfold processEventGroup
    dsimp only
    rw [hr, if_neg (by rw [isEmpty_false_of_ne_nil hne]; exact Bool.false_ne_true)]
    by_cases hm : ((llmJudgeRelation
        (recentActiveFallback s.topics (nowT - 180 * 86400) (min topKcfg 3))
        o.rel cmerge).action == "merge") = true
    · rw [if_pos hm]
      first
      | rfl
      | cases (llmJudgeRelation
            (recentActiveFallback s.topics (nowT - 180 * 86400) (min topKcfg 3))
            o.rel cmerge).targetTopicId <;> rfl
    · rw [if_neg hm]

/-- C3 counterexample: one active recent topic exists and the lone hit has
similarity `0.4 < 0.5`; retrieval still returns a (fallback) candidate and
the relation-judgement LLM is called, contradicting the claim. -/
theorem low_similarity_still_calls_llm_cx :
    retrieveCandidateTopics c3Store.topics 1000 c3Oracle.retr 3 (1/2) ≠ [] ∧
    (processEventGroup c3Store c3Group "2025-11-07_AM" c3Oracle 3 (1/2) (3/4)
      1000).2.llmCalled = true ∧
    (processEventGroup c3Store c3Group "2025-11-07_AM" c3Oracle 3 (1/2) (3/4)
      1000).2.action = "new" := by
  have hlow : ∀ h ∈ c3Oracle.retr.hits, 1 - h.distance < (1/2 : ℚ) := by
    intro h hh
    simp only [c3Oracle, lowSimInput, List.mem_singleton] at hh
    subst hh
    norm_num
  have hr := retrieve_all_low c3Store.topics 1000 c3Oracle.retr 3 (1/2)
    rfl hlow
  have hfbne : recentActiveFallback c3Store.topics (1000 - 180 * 86400)
      (min 3 3) ≠ [] := by
    norm_num +decide [recentActiveFallback, sortDescBy, insertDescBy, c3Store,
      oldTopic, List.filter, mkCandidate]
  have hpe : (processEventGroup c3Store c3Group "2025-11-07_AM" c3Oracle 3
      (1/2) (3/4) 1000).2 =
      ⟨"new", true, some (createNewTopic c3Store c3Group.items "2025-11-07_AM"
        c3Oracle.clf 1000).2⟩ := by
    unfold processEventGroup
    dsimp only
    rw [hr, if_neg (by rw [isEmpty_false_of_ne_nil hfbne]
                       exact Bool.false_ne_true)]
    rw [if_neg (by
      rw [show (llmJudgeRelation (recentActiveFallback c3Store.topics
          (1000 - 180 * 86400) (min 3 3)) c3Oracle.rel (3/4)).action = "new" from by
        unfold llmJudgeRelation
        rw [if_neg (by rw [isEmpty_false_of_ne_nil hfbne]
                       exact Bool.false_ne_true)]
        rfl]
      decide)]
  refine ⟨by rw [hr]; exact hfbne, by rw [hpe], by rw [hpe]⟩

/-- C3 witness for the amended claim: against a store with no topics at
all, the fallback is empty too, so the below-threshold retrieval yields no
candidate and a new topic is created without any relation-judgement LLM
call. -/
theorem low_similarity_falls_back_witness :
    recentActiveFallback c3bStore.topics (1000 - 180 * 86400) (min 3 3) = [] ∧
    (processEventGroup c3bStore c3Group "2025-11-07_AM" c3Oracle 3 (1/2) (3/4)
      1000).2 = ⟨"new", false, some c3bStore.nextTopicId⟩ := by
  have hlow : ∀ h ∈ c3Oracle.retr.hits, 1 - h.distance < (1/2 : ℚ) := by
    intro h hh
    simp only [c3Oracle, lowSimInput, List.mem_singleton] at hh
    subst hh
    norm_num
  have hfb : recentActiveFallback c3bStore.topics (1000 - 180 * 86400)
      (min 3 3) = [] := rfl
  exact ⟨hfb, ((low_similarity_falls_back_to_recent c3bStore c3Group
    "2025-11-07_AM" c3Oracle 3 (1/2) (3/4) 1000 rfl hlow).2.1 hfb).1⟩

theorem foldl_map_map {G α : Type} (f : G → α → α) (gs : List G)
    (db : List α) :
    gs.foldl (fun d g => d.map (f g)) db =
      db.map (fun a => gs.foldl (fun x g => f g x) a) := by
  induction gs generalizing db with
  | nil => simp
  | cons g rest ih =>
    simp only [List.foldl_cons]
    rw [ih, List.map_map]
    rfl

theorem applyJudgeWrites_eq (db : List SourceItem) (gs : List JGroup) :
    applyJudgeWrites db gs = db.map (judgeFold gs) :=
  foldl_map_map judgeStep gs db

theorem applyFilterWrites_eq (minOcc : Nat) (db : List SourceItem)
    (gs : List JGroup) :
    applyFilterWrites minOcc db gs = db.map (filterFold minOcc gs) :=
  foldl_map_map (filterStep minOcc) gs db

theorem judgeStep_id (g : JGroup) (it : SourceItem) :
    (judgeStep g it).id = it.id := by
  unfold judgeStep; split <;> rfl

theorem judgeStep_status (g : JGroup) (it : SourceItem) :
    (judgeStep g it).mergeStatus = it.mergeStatus := by
  unfold judgeStep; split <;> rfl

theorem judgeStep_gid_isSome (g : JGroup) (it : SourceItem)
    (h : it.periodMergeGroupId.isSome = true) :
    (judgeStep g it).periodMergeGroupId.isSome = true := by
  unfold judgeStep
  split
  · rfl
  · exact h

theorem judgeFold_id (gs : List JGroup) (it : SourceItem) :
    (judgeFold gs it).id = it.id := by
  induction gs generalizing it with
  | nil => rfl
  | cons g rest ih =>
    show (judgeFold rest (judgeStep g it)).id = it.id
    rw [ih, judgeStep_id]

theorem judgeFold_status (gs : List JGroup) (it : SourceItem) :
    (judgeFold gs it).mergeStatus = it.mergeStatus := by
  induction gs generalizing it with
  | nil => rfl
  | cons g rest ih =>
    show (judgeFold rest (judgeStep g it)).mergeStatus = it.mergeStatus
    rw [ih, judgeStep_status]

theorem judgeFold_pres_isSome (gs : List JGroup) (it : SourceItem)
    (h : it.periodMergeGroupId.isSome = true) :
    (judgeFold gs it).periodMergeGroupId.isSome = true := by
  induction gs generalizing it with
  | nil => exact h
  | cons g rest ih =>
    exact ih (judgeStep g it) (judgeStep_gid_isSome g it h)

theorem judgeFold_gid_isSome_of (gs : List JGroup) (it : SourceItem)
    (h : ∃ g ∈ gs, g.gidWritten = true ∧
      (g.items.map (·.id)).contains it.id = true) :
    (judgeFold gs it).periodMergeGroupId.isSome = true := by
  induction gs generalizing it with
  | nil => rcases h with ⟨g, hg, _⟩; cases hg
  | cons g rest ih =>
    rcases h with ⟨g', hg', hw, hc⟩
    rcases List.mem_cons.mp hg' with rfl | hg2
    · show (judgeFold rest (judgeStep g' it)).periodMergeGroupId.isSome = true
      apply judgeFold_pres_isSome
      unfold judgeStep
      rw [if_pos (by rw [hw, hc]; rfl)]
      rfl
    · show (judgeFold rest (judgeStep g it)).periodMergeGroupId.isSome = true
      exact ih (judgeStep g it) ⟨g', hg2, hw, by rw [judgeStep_id]; exact hc⟩

theorem filterStep_id (minOcc : Nat) (g : JGroup) (it : SourceItem) :
    (filterStep minOcc g it).id = it.id := by
  unfold filterStep; split <;> rfl

theorem filterStep_gid (minOcc : Nat) (g : JGroup) (it : SourceItem) :
    (filterStep minOcc g it).periodMergeGroupId = it.periodMergeGroupId := by
  unfold filterStep; split <;> rfl

theorem filterFold_id (minOcc : Nat) (gs : List JGroup) (it : SourceItem) :
    (filterFold minOcc gs it).id = it.id := by
  induction gs generalizing it with
  | nil => rfl
  | cons g rest ih =>
    show (filterFold minOcc rest (filterStep minOcc g it)).id = it.id
    rw [ih, filterStep_id]

theorem filterFold_gid (minOcc : Nat) (gs : List JGroup) (it : SourceItem) :
    (filterFold minOcc gs it).periodMergeGroupId = it.periodMergeGroupId := by
  induction gs generalizing it with
  | nil => rfl
  | cons g rest ih =>
    show (filterFold minOcc rest (filterStep minOcc g it)).periodMergeGroupId =
      it.periodMergeGroupId
    rw [ih, filterStep_gid]

theorem filterFold_status_cases (minOcc : Nat) (gs : List JGroup)
    (it : SourceItem) :
    (filterFold minOcc gs it).mergeStatus = it.mergeStatus ∨
      ∃ g ∈ gs, (g.items.map (·.id)).contains it.id = true ∧
        (filterFold minOcc gs it).mergeStatus =
          (if minOcc ≤ g.items.length then MergeStatus.pendingGlobalMerge
           else MergeStatus.discarded) := by
  induction gs generalizing it with
  | nil => exact Or.inl rfl
  | cons g rest ih =>
    have hstep : filterFold minOcc (g :: rest) it =
      filterFold minOcc rest (filterStep minOcc g it) := rfl
    rcases ih (filterStep minOcc g it) with h | ⟨g', hg', hc, hs⟩
    · by_cases hcg : (g.items.map (·.id)).contains it.id = true
      · refine Or.inr ⟨g, List.mem_cons_self _ _, hcg, ?_⟩
        rw [hstep, h]
        unfold filterStep
        rw [if_pos hcg]
      · refine Or.inl ?_
        rw [hstep, h]
        unfold filterStep
        rw [if_neg hcg]
    · refine Or.inr ⟨g', List.mem_cons_of_mem _ hg', ?_, by rw [hstep]; exact hs⟩
      rw [filterStep_id] at hc
      exact hc

theorem vectorClustering_sub (pending : List SourceItem)
    (simM : Nat → Nat → ℚ) (tvec tjac : ℚ) :
    ∀ grp ∈ vectorClustering pending simM tvec tjac, ∀ it ∈ grp,
      it ∈ pending := by
  intro grp hgrp it hit
  unfold vectorClustering at hgrp
  rcases List.mem_map.mp hgrp with ⟨idxs, _, rfl⟩
  rcases List.mem_filterMap.mp hit with ⟨i, _, hg⟩
  exact List.get?_mem hg

theorem llmJudgeMerge_items_sub (verdict : Nat → Option (Bool × ℚ)) :
    ∀ (cands : List (List SourceItem)) (n c : Nat),
      ∀ jg ∈ (llmJudgeMerge verdict cands n c).1, ∀ it ∈ jg.items,
        ∃ cg ∈ cands, it ∈ cg := by
  intro cands
  induction cands with
  | nil =>
    intro n c jg hjg
    simp [llmJudgeMerge] at hjg
  | cons items rest ih =>
    intro n c jg hjg it hit
    have step : ∀ (n' c' : Nat), jg ∈ (llmJudgeMerge verdict rest n' c').1 →
        ∃ cg ∈ items :: rest, it ∈ cg := by
      intro n' c' h2
      rcases ih n' c' jg h2 it hit with ⟨cg, hcg, hcgit⟩
      exact ⟨cg, List.mem_cons_of_mem _ hcg, hcgit⟩
    have enumCase : ∀ (n' : Nat),
        jg ∈ items.enum.map
          (fun p => (⟨n' + p.1, [p.2], true⟩ : JGroup)) →
        ∃ cg ∈ items :: rest, it ∈ cg := by
      intro n' h2
      rcases List.mem_map.mp h2 with ⟨p, hp, rfl⟩
      have hpm : items.get? p.1 = some p.2 := List.mem_enum_iff_get?.mp hp
      rcases List.mem_singleton.mp hit with rfl
      exact ⟨items, List.mem_cons_self _ _, List.get?_mem hpm⟩
    cases items with
    | nil =>
      unfold llmJudgeMerge at hjg
      dsimp only at hjg
      cases hv : verdict c with
      | some pr =>
        rcases pr with ⟨isSame, conf⟩
        rw [hv] at hjg
        dsimp only at hjg
        by_cases hacc : (isSame && decide ((4/5 : ℚ) ≤ conf)) = true
        · rw [if_pos hacc] at hjg
          dsimp only at hjg
          rcases List.mem_cons.mp hjg with rfl | hjg2
          · cases hit
          · exact step _ _ hjg2
        · rw [if_neg hacc] at hjg
          dsimp only at hjg
          exact step _ _ hjg
      | none =>
        rw [hv] at hjg
        dsimp only at hjg
        exact step _ _ hjg
    | cons a t =>
      cases t with
      | nil =>
        have hjg' : jg ∈ (⟨n, [a], false⟩ : JGroup) ::
            (llmJudgeMerge verdict rest (n + 1) c).1 := hjg
        rcases List.mem_cons.mp hjg' with rfl | hjg2
        · exact ⟨[a], List.mem_cons_self _ _, hit⟩
        · exact step _ _ hjg2
      | cons b t2 =>
        unfold llmJudgeMerge at hjg
        dsimp only at hjg
        cases hv : verdict c with
        | some pr =>
          rcases pr with ⟨isSame, conf⟩
          rw [hv] at hjg
          dsimp only at hjg
          by_cases hacc : (isSame && decide ((4/5 : ℚ) ≤ conf)) = true
          · rw [if_pos hacc] at hjg
            dsimp only at hjg
            rcases List.mem_cons.mp hjg with rfl | hjg2
            · exact ⟨a :: b :: t2, List.mem_cons_self _ _, hit⟩
            · exact step _ _ hjg2
          · rw [if_neg hacc] at hjg
            dsimp only at hjg
            rcases List.mem_append.mp hjg with hjg2 | hjg2
            · exact enumCase _ hjg2
            · exact step _ _ hjg2
        | none =>
          rw [hv] at hjg
          dsimp only at hjg
          rcases List.mem_append.mp hjg with hjg2 | hjg2
          · exact enumCase _ hjg2
          · exact step _ _ hjg2

theorem llmJudgeMerge_unwritten_singleton (verdict : Nat → Option (Bool × ℚ)) :
    ∀ (cands : List (List SourceItem)) (n c : Nat),
      ∀ jg ∈ (llmJudgeMerge verdict cands n c).1,
        jg.gidWritten = false → jg.items.length = 1 := by
  intro cands
  induction cands with
  | nil =>
    intro n c jg hjg
    simp [llmJudgeMerge] at hjg
  | cons items rest ih =>
    intro n c jg hjg hw
    have enumCase : ∀ (n' : Nat),
        jg ∈ items.enum.map
          (fun p => (⟨n' + p.1, [p.2], true⟩ : JGroup)) →
        jg.items.length = 1 := by
      intro n' h2
      rcases List.mem_map.mp h2 with ⟨p, _, rfl⟩
      rfl
    cases items with
    | nil =>
      unfold llmJudgeMerge at hjg
      dsimp only at hjg
      cases hv : verdict c with
      | some pr =>
        rcases pr with ⟨isSame, conf⟩
        rw [hv] at hjg
        dsimp only at hjg
        by_cases hacc : (isSame && decide ((4/5 : ℚ) ≤ conf)) = true
        · rw [if_pos hacc] at hjg
          dsimp only at hjg
          rcases List.mem_cons.mp hjg with rfl | hjg2
          · cases hw
          · exact ih _ _ jg hjg2 hw
        · rw [if_neg hacc] at hjg
          dsimp only at hjg
          exact ih _ _ jg hjg hw
      | none =>
        rw [hv] at hjg
        dsimp only at hjg
        exact ih _ _ jg hjg hw
    | cons a t =>
      cases t with
      | nil =>
        have hjg' : jg ∈ (⟨n, [a], false⟩ : JGroup) ::
            (llmJudgeMerge verdict rest (n + 1) c).1 := hjg
        rcases List.mem_cons.mp hjg' with rfl | hjg2
        · rfl
        · exact ih _ _ jg hjg2 hw
      | cons b t2 =>
        unfold llmJudgeMerge at hjg
        dsimp only at hjg
        cases hv : verdict c with
        | some pr =>
          rcases pr with ⟨isSame, conf⟩
          rw [hv] at hjg
          dsimp only at hjg
          by_cases hacc : (isSame && decide ((4/5 : ℚ) ≤ conf)) = true
          · rw [if_pos hacc] at hjg
            dsimp only at hjg
            rcases List.mem_cons.mp hjg with rfl | hjg2
            · cases hw
            · exact ih _ _ jg hjg2 hw
          · rw [if_neg hacc] at hjg
            dsimp only at hjg
            rcases List.mem_append.mp hjg with hjg2 | hjg2
            · exact enumCase _ hjg2
            · exact ih _ _ jg hjg2 hw
        | none =>
          rw [hv] at hjg
          dsimp only at hjg
          rcases List.mem_append.mp hjg with hjg2 | hjg2
          · exact enumCase _ hjg2
          · exact ih _ _ jg hjg2 hw

theorem runEventMerge_db_eq (simM : Nat → Nat → ℚ)
    (verdict : Nat → Option (Bool × ℚ)) (tvec tjac : ℚ) (minOcc : Nat)
    (db : List SourceItem) (period : String)
    (hne : (getPendingItems db period).isEmpty = false) :
    (runEventMerge simM verdict tvec tjac minOcc db period).db =
      db.map (fun a =>
        filterFold minOcc
          (llmJudgeMerge verdict
            (vectorClustering (getPendingItems db period) simM tvec tjac) 0 0).1
          (judgeFold
            (llmJudgeMerge verdict
              (vectorClustering (getPendingItems db period) simM tvec tjac) 0 0).1
            a)) := by
  unfold runEventMerge
  dsimp only
  rw [hne]
  simp only [Bool.false_eq_true, if_false]
  rw [applyJudgeWrites_eq, applyFilterWrites_eq, List.map_map]
  rfl

/-- C7 (amended): when `min_occurrence ≥ 2`, every row that Stage 1 moves
from `pending_event_merge` to `pending_global_merge` carries a
`period_merge_group_id` identifying its cluster.  The original claim — that
a cluster id is set exactly when a row leaves `pending_event_merge`,
singletons included — fails: the singleton branch of `_llm_judge_merge`
(lines 381-390) never assigns `period_merge_group_id`, so rows discarded by
`_filter_by_occurrence` can leave `pending_event_merge` with no cluster id
(see the counterexample). -/
theorem stage1_pendingGlobal_has_clusterId (simM : Nat → Nat → ℚ)
    (verdict : Nat → Option (Bool × ℚ)) (tvec tjac : ℚ) (minOcc : Nat)
    (db : List SourceItem) (period : String) (hmin : 2 ≤ minOcc) :
    List.Forall₂ (fun a b => a.mergeStatus = MergeStatus.pendingEventMerge →
        b.mergeStatus = MergeStatus.pendingGlobalMerge →
        b.periodMergeGroupId.isSome = true)
      db (runEventMerge simM verdict tvec tjac minOcc db period).db := by
  by_cases hpe : (getPendingItems db period).isEmpty = true
  · have hdb : (runEventMerge simM verdict tvec tjac minOcc db period).db = db := by
      unfold runEventMerge
      dsimp only
      rw [if_pos hpe]
    rw [hdb]
    apply List.forall₂_same.mpr
    intro x _ h1 h2
    rw [h1] at h2
    cases h2
  · have hne : (getPendingItems db period).isEmpty = false := by
      simpa using hpe
    rw [runEventMerge_db_eq simM verdict tvec tjac minOcc db period hne]
    rw [List.forall₂_map_right_iff]
    apply List.forall₂_same.mpr
    intro a _ h1 h2
    rcases filterFold_status_cases minOcc
        (llmJudgeMerge verdict
          (vectorClustering (getPendingItems db period) simM tvec tjac) 0 0).1
        (judgeFold
          (llmJudgeMerge verdict
            (vectorClustering (getPendingItems db period) simM tvec tjac) 0 0).1
          a) with h | hex
    · rw [judgeFold_status, h1] at h
      rw [h] at h2
      cases h2
    · rcases hex with ⟨g, hg, hc, hs⟩
      by_cases hlen : minOcc ≤ g.items.length
      · have hw : g.gidWritten = true := by
          by_cases hwb : g.gidWritten = false
          · have := llmJudgeMerge_unwritten_singleton verdict _ 0 0 g hg hwb
            rw [this] at hlen
            omega
          · simpa using hwb
        have hc' : (g.items.map (·.id)).contains a.id = true := by
          rw [judgeFold_id] at hc
          exact hc
        rw [filterFold_gid]
        exact judgeFold_gid_isSome_of _ a ⟨g, hg, hw, hc'⟩
      · rw [if_neg hlen] at hs
        rw [hs] at h2
        cases h2

/-- Counterexample to C7 as stated: two pending items that share no bigram
and get zero vector similarity form two singleton candidate clusters; with
`min_occurrence = 2` both rows leave `pending_event_merge` (they are
discarded) yet neither ever receives a `period_merge_group_id`. -/
theorem stage1_singleton_discarded_without_clusterId_cx :
    (runEventMerge zeroSim noVerdict (17/20) (3/5) 2 [noiseItemA, noiseItemB]
        "2025-11-07_AM").db.map
      (fun x => (x.mergeStatus, x.periodMergeGroupId)) =
    [(MergeStatus.discarded, none), (MergeStatus.discarded, none)] := by
  norm_num +decide [runEventMerge, getPendingItems, isPendingEventOf, vectorClustering,
    greedyGroups, attachTest, zeroSim, titleJaccard, llmJudgeMerge, noVerdict,
    applyJudgeWrites, applyFilterWrites, judgeStep, filterStep, noiseItemA, noiseItemB,
    loneHeatItem, List.filter, List.range, List.foldl]

/-- Witness for C7 (amended) at a run of two identically titled pending
items that the LLM accepts as one cluster: both rows end
`pending_global_merge` and both carry `period_merge_group_id = 0`. -/
theorem stage1_pendingGlobal_has_clusterId_witness :
    2 ≤ 2 ∧
    List.Forall₂ (fun a b => a.mergeStatus = MergeStatus.pendingEventMerge →
        b.mergeStatus = MergeStatus.pendingGlobalMerge →
        b.periodMergeGroupId.isSome = true)
      [dupItemA, dupItemB]
      (runEventMerge oneSim yesVerdict (17/20) (3/5) 2 [dupItemA, dupItemB]
        "2025-11-07_AM").db ∧
    (runEventMerge oneSim yesVerdict (17/20) (3/5) 2 [dupItemA, dupItemB]
        "2025-11-07_AM").db.map
      (fun x => (x.mergeStatus, x.periodMergeGroupId)) =
    [(MergeStatus.pendingGlobalMerge, some 0), (MergeStatus.pendingGlobalMerge, some 0)] := by
  refine ⟨by decide,
    stage1_pendingGlobal_has_clusterId oneSim yesVerdict (17/20) (3/5) 2
      [dupItemA, dupItemB] "2025-11-07_AM" (by decide), ?_⟩
  norm_num +decide [runEventMerge, getPendingItems, isPendingEventOf, vectorClustering,
    greedyGroups, attachTest, oneSim, titleJaccard, llmJudgeMerge, yesVerdict,
    applyJudgeWrites, applyFilterWrites, judgeStep, filterStep, dupItemA, dupItemB,
    loneHeatItem, List.filter, List.range, List.foldl, List.dedup, List.enum]

theorem updateTopicHeat_items (s : Store) (t : Topic) (items : List SourceItem)
    (period : String) : (updateTopicHeat s t items period).1.items = s.items := by
  unfold updateTopicHeat
  dsimp only
  split <;> rfl

theorem createPlaceholderSummary_items (s : Store) (t : Topic) (nowT : Int) :
    (createPlaceholderSummary s t nowT).1.items = s.items := rfl

theorem ensureSummaryVector_items (s : Store) (t : Topic) (nowT : Int) :
    (ensureSummaryVector s t nowT).items = s.items := by
  unfold ensureSummaryVector
  cases t.summaryId with
  | none => rfl
  | some sid =>
    dsimp only
    split
    · rfl
    · split <;> rfl

theorem generateFullSummary_items (s : Store) (t : Topic) (llm : Option String)
    (nowT : Int) : (generateFullSummary s t llm nowT).1.items = s.items := by
  unfold generateFullSummary
  dsimp only
  split
  · rfl
  · cases llm <;> rfl

theorem generateIncrementalSummary_items (s : Store) (t : Topic)
    (cur : SummaryRow) (newNodes : List TopicNode) (llm : Option IncResult)
    (nowT : Int) :
    (generateIncrementalSummary s t cur newNodes llm nowT).1.items = s.items := by
  unfold generateIncrementalSummary
  split
  · rfl
  · cases llm with
    | none => rfl
    | some r =>
      dsimp only
      split <;> rfl

theorem generateOrUpdateSummary_items (s : Store) (t : Topic)
    (newNodes : List TopicNode) (llmFull : Option String)
    (llmInc : Option IncResult) (nowT : Int) :
    (generateOrUpdateSummary s t newNodes llmFull llmInc nowT).1.items =
      s.items := by
  unfold generateOrUpdateSummary
  cases latestSummary (s.summaries.filter (fun r => r.topicId == t.id)) with
  | none =>
    dsimp only
    exact generateFullSummary_items s t llmFull nowT
  | some cur =>
    exact generateIncrementalSummary_items s t cur newNodes llmInc nowT

theorem createNewTopic_items (s : Store) (items : List SourceItem)
    (period : String) (clf : Option (String × ℚ)) (nowT : Int) :
    (createNewTopic s items period clf nowT).1.items =
      setMergedByIds s.items (items.map (fun x => x.id)) := by
  unfold createNewTopic
  dsimp only
  rw [ensureSummaryVector_items, updateTopicHeat_items]

theorem mergeToTopic_items_cases (s : Store) (topicId : Nat)
    (items : List SourceItem) (period : String) (llmFull : Option String)
    (llmInc : Option IncResult) (nowT : Int) :
    (mergeToTopic s topicId items period llmFull llmInc nowT).items =
        setMergedByIds s.items (items.map (fun x => x.id)) ∨
      (mergeToTopic s topicId items period llmFull llmInc nowT).items =
        s.items := by
  unfold mergeToTopic
  cases s.topics.find? (fun t => t.id == topicId) with
  | none => exact Or.inr rfl
  | some t =>
    left
    dsimp only
    rw [generateOrUpdateSummary_items, ensureSummaryVector_items,
      updateTopicHeat_items]

theorem processEventGroup_items_cases (s : Store) (g : EventGroup)
    (period : String) (o : GroupOracle) (topKcfg : Nat) (ssim cmerge : ℚ)
    (nowT : Int) :
    (processEventGroup s g period o topKcfg ssim cmerge nowT).1.items =
        setMergedByIds s.items (g.items.map (fun x => x.id)) ∨
      (processEventGroup s g period o topKcfg ssim cmerge nowT).1.items =
        s.items := by
  unfold processEventGroup
  dsimp only
  split
  · exact Or.inl (createNewTopic_items s g.items period o.clf nowT)
  · split
    · cases (llmJudgeRelation
          (retrieveCandidateTopics s.topics nowT o.retr topKcfg ssim)
          o.rel cmerge).targetTopicId with
      | none => exact Or.inl (createNewTopic_items s g.items period o.clf nowT)
      | some tid =>
        exact mergeToTopic_items_cases s tid g.items period o.full o.inc nowT
    · exact Or.inl (createNewTopic_items s g.items period o.clf nowT)

theorem globalStep_fst (oracles : Nat → GroupOracle) (topKcfg : Nat)
    (ssim cmerge : ℚ) (period : String) (nowT : Int)
    (acc : Store × Nat × Nat × List Nat) (p : Nat × EventGroup) :
    (globalStep oracles topKcfg ssim cmerge period nowT acc p).1 =
      (processEventGroup acc.1 p.2 period (oracles p.1) topKcfg ssim
        cmerge nowT).1 := by
  unfold globalStep
  dsimp only
  split <;> rfl

theorem batchStep_items (batchFull : Nat → Option String) (nowT : Int)
    (st : Store) (p : Nat × Nat) :
    (batchStep batchFull nowT st p).items = st.items := by
  unfold batchStep
  cases st.topics.find? (fun t => t.id == p.2) with
  | none => rfl
  | some t => exact generateFullSummary_items st t (batchFull p.1) nowT

theorem batchFold_items (batchFull : Nat → Option String) (nowT : Int) :
    ∀ (l : List (Nat × Nat)) (st : Store),
      (l.foldl (batchStep batchFull nowT) st).items = st.items := by
  intro l
  induction l with
  | nil => intro st; rfl
  | cons p rest ih =>
    intro st
    rw [List.foldl_cons, ih, batchStep_items]

theorem itemEvolves_refl (a : SourceItem) : itemEvolves a a := ⟨rfl, Or.inl rfl⟩

theorem contains_iff_mem {l : List Nat} {a : Nat} :
    l.contains a = true ↔ a ∈ l := List.elem_iff

theorem setMerged_rel_step (ids : List Nat) :
    ∀ {orig cur : List SourceItem},
      List.Forall₂ itemEvolves orig cur →
      (∀ x ∈ orig, ids.contains x.id = true →
        x.mergeStatus = MergeStatus.pendingGlobalMerge) →
      List.Forall₂ itemEvolves orig (setMergedByIds cur ids) := by
  intro orig cur h
  induction h with
  | nil => intro _; exact List.Forall₂.nil
  | cons hab htl ih =>
    intro H
    rename_i a b l₁ l₂
    have hstep : setMergedByIds (b :: l₂) ids =
        (if ids.contains b.id then { b with mergeStatus := MergeStatus.merged }
         else b) :: setMergedByIds l₂ ids := rfl
    rw [hstep]
    refine List.Forall₂.cons ?_
      (ih (fun x hx hc => H x (List.mem_cons_of_mem _ hx) hc))
    by_cases hcb : ids.contains b.id = true
    · rw [if_pos hcb]
      have hid : a.id = b.id := hab.1
      have ha : a.mergeStatus = MergeStatus.pendingGlobalMerge :=
        H a (List.mem_cons_self _ _) (by rw [hid]; exact hcb)
      refine ⟨hid, Or.inr ⟨ha, ?_⟩⟩
      rcases hab.2 with rfl | ⟨_, rfl⟩
      · rfl
      · rfl
    · rw [if_neg hcb]
      exact hab

theorem getPendingMergeGroups_items_mem (items : List SourceItem)
    (period : String) :
    ∀ g ∈ getPendingMergeGroups items period, ∀ a ∈ g.items,
      a ∈ items ∧ a.mergeStatus = MergeStatus.pendingGlobalMerge := by
  intro g hg a ha
  unfold getPendingMergeGroups at hg
  dsimp only at hg
  rcases List.mem_map.mp hg with ⟨gid, _, rfl⟩
  have ha2 : a ∈ items.filter (fun it =>
      it.period == period && it.mergeStatus == MergeStatus.pendingGlobalMerge) :=
    List.mem_of_mem_filter ha
  have := List.mem_filter.mp ha2
  refine ⟨this.1, ?_⟩
  have hc := this.2
  simp only [Bool.and_eq_true, beq_iff_eq] at hc
  exact hc.2

theorem globalLoop_evolves (oracles : Nat → GroupOracle) (topKcfg : Nat)
    (ssim cmerge : ℚ) (period : String) (nowT : Int)
    (orig : List SourceItem) :
    ∀ (pgs : List (Nat × EventGroup)) (acc : Store × Nat × Nat × List Nat),
      (∀ pg ∈ pgs, ∀ x ∈ orig,
        (pg.2.items.map (fun y => y.id)).contains x.id = true →
          x.mergeStatus = MergeStatus.pendingGlobalMerge) →
      List.Forall₂ itemEvolves orig acc.1.items →
      List.Forall₂ itemEvolves orig
        ((pgs.foldl (globalStep oracles topKcfg ssim cmerge period nowT)
          acc).1.items) := by
  intro pgs
  induction pgs with
  | nil => intro acc _ h; exact h
  | cons pg rest ih =>
    intro acc H h
    rw [List.foldl_cons]
    refine ih _ (fun pg' hpg' => H pg' (List.mem_cons_of_mem _ hpg')) ?_
    rw [globalStep_fst]
    rcases processEventGroup_items_cases acc.1 pg.2 period (oracles pg.1)
        topKcfg ssim cmerge nowT with hc | hc
    · rw [hc]
      exact setMerged_rel_step _ h
        (fun x hx hcx => H pg (List.mem_cons_self _ _) x hx hcx)
    · rw [hc]
      exact h

theorem stage2_statuses_allowed (oracles : Nat → GroupOracle)
    (batchFull : Nat → Option String) (topKcfg : Nat) (ssim cmerge : ℚ)
    (s : Store) (period : String) (nowT : Int)
    (hnd : (s.items.map (fun x => x.id)).Nodup) :
    List.Forall₂ allowedStep2 (s.items.map (fun x => x.mergeStatus))
      ((runGlobalMerge oracles batchFull topKcfg ssim cmerge s period
        nowT).store.items.map (fun x => x.mergeStatus)) := by
  have key : List.Forall₂ itemEvolves s.items
      (runGlobalMerge oracles batchFull topKcfg ssim cmerge s period
        nowT).store.items := by
    unfold runGlobalMerge
    dsimp only
    by_cases hg : (getPendingMergeGroups s.items period).isEmpty = true
    · rw [if_pos hg]
      exact List.forall₂_same.mpr (fun x _ => itemEvolves_refl x)
    · rw [if_neg hg]
      dsimp only
      rw [batchFold_items]
      apply globalLoop_evolves
      · intro pg hpg x hx hc
        have hmem : pg.2 ∈ (getPendingMergeGroups s.items period).take 200 :=
          List.get?_mem (List.mem_enum_iff_get?.mp hpg)
        have hmem2 : pg.2 ∈ getPendingMergeGroups s.items period :=
          List.take_subset _ _ hmem
        rcases List.mem_map.mp (contains_iff_mem.mp hc) with ⟨a, hag, haid⟩
        rcases getPendingMergeGroups_items_mem s.items period pg.2 hmem2 a hag
          with ⟨hamem, hast⟩
        have hax : a = x := List.inj_on_of_nodup_map hnd hamem hx haid
        rw [← hax]
        exact hast
      · exact List.forall₂_same.mpr (fun x _ => itemEvolves_refl x)
  rw [List.forall₂_map_left_iff, List.forall₂_map_right_iff]
  refine key.imp ?_
  intro a b hab
  rcases hab with ⟨_, rfl | ⟨hp, rfl⟩⟩
  · exact Or.inl rfl
  · exact Or.inr ⟨hp, rfl⟩

theorem stage1_statuses_allowed (simM : Nat → Nat → ℚ)
    (verdict : Nat → Option (Bool × ℚ)) (tvec tjac : ℚ) (minOcc : Nat)
    (db : List SourceItem) (period : String)
    (hnd : (db.map (fun x => x.id)).Nodup) :
    List.Forall₂ allowedStep1 (db.map (fun x => x.mergeStatus))
      ((runEventMerge simM verdict tvec tjac minOcc db period).db.map
        (fun x => x.mergeStatus)) := by
  by_cases hpe : (getPendingItems db period).isEmpty = true
  · have hdb : (runEventMerge simM verdict tvec tjac minOcc db period).db = db := by
      unfold runEventMerge
      dsimp only
      rw [if_pos hpe]
    rw [hdb, List.forall₂_map_left_iff, List.forall₂_map_right_iff]
    exact List.forall₂_same.mpr (fun x _ => Or.inl rfl)
  · have hne : (getPendingItems db period).isEmpty = false := by
      simpa using hpe
    rw [runEventMerge_db_eq simM verdict tvec tjac minOcc db period hne,
      List.map_map, List.forall₂_map_left_iff, List.forall₂_map_right_iff]
    apply List.forall₂_same.mpr
    intro a ha
    dsimp only [Function.comp]
    rcases filterFold_status_cases minOcc
        (llmJudgeMerge verdict
          (vectorClustering (getPendingItems db period) simM tvec tjac) 0 0).1
        (judgeFold
          (llmJudgeMerge verdict
            (vectorClustering (getPendingItems db period) simM tvec tjac) 0 0).1
          a) with h | hex
    · refine Or.inl ?_
      rw [h, judgeFold_status]
    · rcases hex with ⟨g, hg, hc, hs⟩
      rw [judgeFold_id] at hc
      rcases List.mem_map.mp (contains_iff_mem.mp hc) with ⟨x, hxg, hxid⟩
      rcases llmJudgeMerge_items_sub verdict
          (vectorClustering (getPendingItems db period) simM tvec tjac) 0 0
          g hg x hxg with ⟨cg, hcg, hxcg⟩
      have hxp : x ∈ db.filter (isPendingEventOf period) :=
        vectorClustering_sub (getPendingItems db period) simM tvec tjac
          cg hcg x hxcg
      have hxdb : x ∈ db ∧ isPendingEventOf period x = true :=
        List.mem_filter.mp hxp
      have hxst : x.mergeStatus = MergeStatus.pendingEventMerge := by
        have h2 := hxdb.2
        simp only [isPendingEventOf, Bool.and_eq_true, beq_iff_eq] at h2
        exact h2.2
      have hxa : x = a := List.inj_on_of_nodup_map hnd hxdb.1 ha hxid
      refine Or.inr ⟨by rw [← hxa]; exact hxst, ?_⟩
      by_cases hlen : minOcc ≤ g.items.length
      · rw [if_pos hlen] at hs
        exact Or.inl hs
      · rw [if_neg hlen] at hs
        exact Or.inr hs

/-- C1: status transitions are monotonic.  Over a database whose item ids
are distinct, Stage 1 (`run_event_merge`) changes a row's status only from
`pending_event_merge` to `pending_global_merge` or `discarded`, and Stage 2
(`run_global_merge`) changes a row's status only from `pending_global_merge`
to `merged`; every other row keeps its status, so no status ever moves
backward and each stage processes an item at most once. -/
theorem status_transitions_monotonic (simM : Nat → Nat → ℚ)
    (verdict : Nat → Option (Bool × ℚ)) (tvec tjac : ℚ) (minOcc : Nat)
    (db : List SourceItem) (period1 : String) (oracles : Nat → GroupOracle)
    (batchFull : Nat → Option String) (topKcfg : Nat) (ssim cmerge : ℚ)
    (s : Store) (period2 : String) (nowT : Int)
    (hnd1 : (db.map (fun x => x.id)).Nodup)
    (hnd2 : (s.items.map (fun x => x.id)).Nodup) :
    List.Forall₂ allowedStep1 (db.map (fun x => x.mergeStatus))
      ((runEventMerge simM verdict tvec tjac minOcc db period1).db.map
        (fun x => x.mergeStatus)) ∧
    List.Forall₂ allowedStep2 (s.items.map (fun x => x.mergeStatus))
      ((runGlobalMerge oracles batchFull topKcfg ssim cmerge s period2
        nowT).store.items.map (fun x => x.mergeStatus)) :=
  ⟨stage1_statuses_allowed simM verdict tvec tjac minOcc db period1 hnd1,
   stage2_statuses_allowed oracles batchFull topKcfg ssim cmerge s period2
     nowT hnd2⟩

/-- Witness for C1 at a concrete Stage 1 run (two duplicate pending items)
and a concrete Stage 2 run (one pending-global item, empty topic table). -/
theorem status_transitions_monotonic_witness :
    (([dupItemA, dupItemB].map (fun x => x.id)).Nodup ∧
      (emptyTopicStore.items.map (fun x => x.id)).Nodup) ∧
    (List.Forall₂ allowedStep1
        ([dupItemA, dupItemB].map (fun x => x.mergeStatus))
        ((runEventMerge oneSim yesVerdict (17/20) (3/5) 2 [dupItemA, dupItemB]
          "2025-11-07_AM").db.map (fun x => x.mergeStatus)) ∧
      List.Forall₂ allowedStep2
        (emptyTopicStore.items.map (fun x => x.mergeStatus))
        ((runGlobalMerge noCandidateOracle noFull 3 (1/2) (3/4) emptyTopicStore
          "2025-11-07_AM" 1000).store.items.map (fun x => x.mergeStatus))) :=
  ⟨⟨by decide, by decide⟩,
    status_transitions_monotonic oneSim yesVerdict (17/20) (3/5) 2
      [dupItemA, dupItemB] "2025-11-07_AM" noCandidateOracle noFull 3 (1/2)
      (3/4) emptyTopicStore "2025-11-07_AM" 1000 (by decide) (by decide)⟩
